import Mathlib

/-!
Verification of the Automated Code Review Agent pipeline.

This file gives a shallow embedding, in Lean 4, of the parts of the
code-review pipeline that the specification's claims are about:

* `src/utils/llm_parser.py` — the defensive structured-data extractor
  (`safe_parse_json`), together with a model of Python's `json.loads` and
  `json.dumps` restricted to the JSON grammar that `json.loads` accepts;
* `src/agents/security.py`, `src/agents/performance.py`, `src/agents/style.py`
  — the analysis-branch node functions and the `_parse_llm_response`
  validation loops;
* `src/utils/git_ops.py` — `is_git_url` and `cleanup_repository` over a small
  file-system model;
* `src/agents/ingestor.py`, `src/agents/aggregator.py`,
  `src/graph/workflow.py` — the graph executor: ingestion, the conditional
  gate, the parallel fan-out, barrier merge and aggregation.

`src/graph/state.py` (the `ReviewState` channel declarations) is not present
under `src/`; the shared-state merge protocol is therefore modelled from the
spec (sections 3 and 4.1), as flagged on the definitions concerned.

Machine-level caveats of the embedding are noted next to each definition.
-/

namespace CRA

/-! Python string primitives, modelled on `List Char`. -/

/-- White-space test matching Python `str.strip()` for the ASCII range
(space, tab, newline, carriage return, vertical tab, form feed).
Non-ASCII Unicode white-space is not modelled. -/
def isPyWs (c : Char) : Bool :=
  c = ' ' || c = '\t' || c = '\n' || c = '\r' || c = '\x0b' || c = '\x0c'

/-- Python `str.lstrip()` (no argument): drop leading white-space. -/
def pyLstrip (l : List Char) : List Char := l.dropWhile isPyWs

/-- Drop trailing characters satisfying `p` (helper for `rstrip`). -/
def dropTrailing (p : Char → Bool) (l : List Char) : List Char :=
  (l.reverse.dropWhile p).reverse

/-- Python `str.rstrip()` (no argument): drop trailing white-space. -/
def pyRstrip (l : List Char) : List Char := dropTrailing isPyWs l

/-- Python `str.strip()` (no argument). -/
def pyStrip (l : List Char) : List Char := pyRstrip (pyLstrip l)

/-- Python `str.rstrip(',')`: drop all trailing commas. -/
def pyRstripComma (l : List Char) : List Char := dropTrailing (fun c => c = ',') l

/-- Python `str.count(c)` for a single-character argument. -/
def pyCountChar (c : Char) (l : List Char) : Nat := l.countP (fun x => x = c)

/-- Python `str.find(c)` for a single character: index of the first
occurrence, `none` standing for Python's `-1`. -/
def pyFindChar (c : Char) (l : List Char) : Option Nat :=
  l.findIdx? (fun x => x = c)

/-- Python `str.rfind(c)` for a single character: index of the last
occurrence, `none` standing for Python's `-1`. -/
def pyRfindChar (c : Char) (l : List Char) : Option Nat :=
  match (l.reverse.findIdx? (fun x => x = c)) with
  | none => none
  | some i => some (l.length - 1 - i)

/-- Python `str.endswith(c)` for a single character. -/
def pyEndsWithChar (c : Char) (l : List Char) : Bool :=
  match l.reverse with
  | [] => false
  | x :: _ => x = c

/-- Whether `p` is an initial segment of `l`. -/
def listIsInit (p l : List Char) : Bool :=
  match p, l with
  | [], _ => true
  | _ :: _, [] => false
  | a :: p2, b :: l2 => a = b && listIsInit p2 l2

/-- Index of the first occurrence of `sub` as a contiguous segment of `l`
(Python `str.find(sub)`), `none` for `-1`. -/
def subIdx (sub : List Char) : List Char → Option Nat
  | [] => if sub.isEmpty then some 0 else none
  | c :: l =>
    if listIsInit sub (c :: l) then some 0
    else (subIdx sub l).map (· + 1)

/-- Whether `sub` occurs as a contiguous segment of `l`. -/
def hasSub (sub l : List Char) : Bool := (subIdx sub l).isSome

/-! JSON values.

`num` carries the numeric literal exactly as scanned; Python converts it to
`int` or `float`, whose floating-point representation is outside this
model (two literals denoting the same float are distinct here). `str`
carries the decoded code points; Python additionally admits lone
surrogates produced by `\uXXXX` escapes, which Lean's `Char` cannot
represent — the parser below maps a lone surrogate to U+FFFD, a corner
none of the theorems exercise. -/

inductive Json where
  | null
  | bool (b : Bool)
  | num (lex : List Char)
  | str (s : List Char)
  | arr (elems : List Json)
  | obj (members : List (List Char × Json))

mutual

/-- Boolean equality on JSON values. -/
def jsonBeq : Json → Json → Bool
  | .null, .null => true
  | .bool a, .bool b => a == b
  | .num a, .num b => a == b
  | .str a, .str b => a == b
  | .arr xs, .arr ys => jsonListBeq xs ys
  | .obj xs, .obj ys => jsonMembersBeq xs ys
  | _, _ => false

/-- Boolean equality on JSON value lists. -/
def jsonListBeq : List Json → List Json → Bool
  | [], [] => true
  | x :: xs, y :: ys => jsonBeq x y && jsonListBeq xs ys
  | _, _ => false

/-- Boolean equality on JSON member lists. -/
def jsonMembersBeq : List (List Char × Json) → List (List Char × Json) → Bool
  | [], [] => true
  | (k1, v1) :: xs, (k2, v2) :: ys => k1 == k2 && jsonBeq v1 v2 && jsonMembersBeq xs ys
  | _, _ => false

end

/-- Pointwise soundness of `jsonListBeq`. -/
theorem jsonListBeq_iff (xs ys : List Json)
    (ih : ∀ x ∈ xs, ∀ y, jsonBeq x y = true ↔ x = y) :
    jsonListBeq xs ys = true ↔ xs = ys := by
  induction xs generalizing ys with
  | nil => cases ys <;> simp [jsonListBeq]
  | cons x xs ihl =>
    cases ys with
    | nil => simp [jsonListBeq]
    | cons y ys =>
      simp only [jsonListBeq, Bool.and_eq_true, List.cons.injEq]
      rw [ih x (by simp) y, ihl ys (fun a ha b => ih a (by simp [ha]) b)]

/-- Pointwise soundness of `jsonMembersBeq`. -/
theorem jsonMembersBeq_iff (xs ys : List (List Char × Json))
    (ih : ∀ m ∈ xs, ∀ y, jsonBeq m.2 y = true ↔ m.2 = y) :
    jsonMembersBeq xs ys = true ↔ xs = ys := by
  induction xs generalizing ys with
  | nil => cases ys <;> simp [jsonMembersBeq]
  | cons m xs ihl =>
    cases ys with
    | nil => simp [jsonMembersBeq]
    | cons m2 ys =>
      obtain ⟨k1, v1⟩ := m
      obtain ⟨k2, v2⟩ := m2
      simp only [jsonMembersBeq, Bool.and_eq_true, List.cons.injEq, beq_iff_eq,
        Prod.mk.injEq]
      rw [ih (k1, v1) (by simp) v2, ihl ys (fun a ha b => ih a (by simp [ha]) b)]
      try tauto

/-- Soundness of `jsonBeq`, by strong induction on the size bound. -/
theorem jsonBeq_iff_aux : ∀ n, ∀ a : Json, sizeOf a ≤ n → ∀ b : Json,
    jsonBeq a b = true ↔ a = b := by
  intro n
  induction n with
  | zero => intro a ha; cases a <;> simp_arith at ha
  | succ n ih =>
    intro a ha b
    cases a with
    | null => cases b <;> simp [jsonBeq]
    | bool x => cases b <;> simp [jsonBeq]
    | num x => cases b <;> simp [jsonBeq]
    | str x => cases b <;> simp [jsonBeq]
    | arr xs =>
      cases b with
      | arr ys =>
        simp only [jsonBeq, Json.arr.injEq]
        exact jsonListBeq_iff xs ys (fun x hx y => by
          have hlt : sizeOf x < sizeOf xs := List.sizeOf_lt_of_mem hx
          have : sizeOf (Json.arr xs) = 1 + sizeOf xs := by simp
          exact ih x (by omega) y)
      | null => simp [jsonBeq]
      | bool _ => simp [jsonBeq]
      | num _ => simp [jsonBeq]
      | str _ => simp [jsonBeq]
      | obj _ => simp [jsonBeq]
    | obj xs =>
      cases b with
      | obj ys =>
        simp only [jsonBeq, Json.obj.injEq]
        exact jsonMembersBeq_iff xs ys (fun m hm y => by
          have hlt : sizeOf m < sizeOf xs := List.sizeOf_lt_of_mem hm
          have h2 : sizeOf m.2 < sizeOf m := by
            obtain ⟨k, v⟩ := m; simp_arith
          have : sizeOf (Json.obj xs) = 1 + sizeOf xs := by simp
          exact ih m.2 (by omega) y)
      | null => simp [jsonBeq]
      | bool _ => simp [jsonBeq]
      | num _ => simp [jsonBeq]
      | str _ => simp [jsonBeq]
      | arr _ => simp [jsonBeq]

/-- Decidable equality for JSON values, via `jsonBeq`. -/
instance : DecidableEq Json := fun a b =>
  decidable_of_iff (jsonBeq a b = true) (jsonBeq_iff_aux (sizeOf a) a le_rfl b)

/-! A model of Python `json.loads` (default arguments): recursive-descent
over the JSON grammar, with `NaN`, `Infinity` and `-Infinity` accepted as
numeric constants, strict rejection of raw control characters inside
strings, and later duplicate object keys overwriting the earlier value in
place (CPython dict insertion order). Nesting is bounded by a fuel
argument; the entry point supplies `length + 1`, which dominates any
nesting depth reachable on the given input since every descent consumes at
least one character. -/

/-- JSON inter-token white-space (space, tab, newline, carriage return). -/
def isJsonWs (c : Char) : Bool :=
  c = ' ' || c = '\t' || c = '\n' || c = '\r'

/-- Skip JSON white-space. -/
def skipJsonWs (l : List Char) : List Char := l.dropWhile isJsonWs

/-- ASCII decimal digit test. -/
def isDigit09 (c : Char) : Bool := ('0' ≤ c) && (c ≤ '9')

/-- Split a maximal run of decimal digits off the front. -/
def spanDigits (l : List Char) : List Char × List Char :=
  (l.takeWhile isDigit09, l.dropWhile isDigit09)

/-- Scan the integer part of a JSON number: `0` alone, or a nonzero digit
followed by any digits (no leading zeros). -/
def scanIntPart : List Char → Option (List Char × List Char)
  | [] => none
  | c :: t =>
    if c = '0' then some (['0'], t)
    else if isDigit09 c then
      let p := spanDigits t
      some (c :: p.1, p.2)
    else none

/-- Scan an optional fraction part `.digits`; yields `[]` when absent or
not fully formed (the regex's optional group then does not participate). -/
def scanFracPart (l : List Char) : List Char × List Char :=
  match l with
  | c :: t =>
    if c = '.' then
      let p := spanDigits t
      if p.1.isEmpty then ([], c :: t) else ('.' :: p.1, p.2)
    else ([], c :: t)
  | [] => ([], [])

/-- Scan an optional exponent part `[eE][+-]?digits`; yields `[]` when
absent or not fully formed. -/
def scanExpPart (l : List Char) : List Char × List Char :=
  match l with
  | e :: t =>
    if e = 'e' || e = 'E' then
      let sgn : List Char × List Char :=
        match t with
        | c :: t2 => if c = '+' || c = '-' then ([c], t2) else ([], c :: t2)
        | [] => ([], [])
      let p := spanDigits sgn.2
      if p.1.isEmpty then ([], e :: t) else (e :: (sgn.1 ++ p.1), p.2)
    else ([], e :: t)
  | [] => ([], [])

/-- Scan an optional leading minus sign. -/
def scanSign : List Char → List Char × List Char
  | [] => ([], [])
  | c :: t => if c = '-' then (['-'], t) else ([], c :: t)

/-- Scan a JSON number literal (the `NUMBER_RE` of CPython's json
module): `-?(0|[1-9]\d*)(\.\d+)?([eE][+-]?\d+)?`, maximal munch, the
whole lexeme returned verbatim. -/
def scanNumber (s : List Char) : Option (List Char × List Char) :=
  let sgn := scanSign s
  match scanIntPart sgn.2 with
  | none => none
  | some (ip, s2) =>
    let fp := scanFracPart s2
    let ep := scanExpPart fp.2
    some (sgn.1 ++ ip ++ fp.1 ++ ep.1, ep.2)

/-- Value of one hexadecimal digit. -/
def hexVal (c : Char) : Option Nat :=
  if '0' ≤ c && c ≤ '9' then some (c.toNat - 48)
  else if 'a' ≤ c && c ≤ 'f' then some (c.toNat - 87)
  else if 'A' ≤ c && c ≤ 'F' then some (c.toNat - 55)
  else none

/-- Value of a four-digit hexadecimal escape payload. -/
def hex4 (h1 h2 h3 h4 : Char) : Option Nat :=
  match hexVal h1, hexVal h2, hexVal h3, hexVal h4 with
  | some a, some b, some c, some d => some (a * 4096 + b * 256 + c * 16 + d)
  | _, _, _, _ => none

/-- Code point for a `\uXXXX` payload that is not part of a surrogate
pair. A lone surrogate (which Python would keep in the `str`) has no
`Char` representation and is mapped to U+FFFD. -/
def uChar (n : Nat) : Char :=
  if 0xD800 ≤ n && n < 0xE000 then '�' else Char.ofNat n

/-- Short backslash escapes accepted inside JSON strings. -/
def escMap (e : Char) : Option Char :=
  if e = '"' then some '"'
  else if e = '\\' then some '\\'
  else if e = '/' then some '/'
  else if e = 'b' then some '\x08'
  else if e = 'f' then some '\x0c'
  else if e = 'n' then some '\n'
  else if e = 'r' then some '\r'
  else if e = 't' then some '\t'
  else none

/-- Prepend a character to the content component of a string-parse result. -/
def consStr (c : Char) (r : Option (List Char × List Char)) :
    Option (List Char × List Char) :=
  r.map (fun p => (c :: p.1, p.2))

/-- Scan a `\uXXXX` escape carrying a low surrogate at the head of the
input (used to pair it with a preceding high surrogate). -/
def lowSurrScan : List Char → Option (Nat × List Char)
  | '\\' :: 'u' :: g1 :: g2 :: g3 :: g4 :: r3 =>
    match hex4 g1 g2 g3 g4 with
    | some m => if 0xDC00 ≤ m && m < 0xE000 then some (m, r3) else none
    | none => none
  | _ => none

/-- Continue a `\uXXXX` escape whose payload is `n`: pair a high
surrogate with an immediately following low surrogate escape (as
CPython's json string scanner does), otherwise emit the code point. -/
def parseUEsc (r2 : List Char) (n : Nat) : Option (List Char × List Char) :=
  if 0xD800 ≤ n && n < 0xDC00 then
    match lowSurrScan r2 with
    | some p =>
      some ([Char.ofNat (0x10000 + (n - 0xD800) * 0x400 + (p.1 - 0xDC00))], p.2)
    | none => some ([uChar n], r2)
  else some ([uChar n], r2)

/-- Parse one backslash escape, the backslash already consumed; returns
the emitted characters and the remaining input. -/
def parseOneEsc : List Char → Option (List Char × List Char)
  | [] => none
  | e :: r =>
    if e = 'u' then
      match r with
      | h1 :: h2 :: h3 :: h4 :: r2 =>
        match hex4 h1 h2 h3 h4 with
        | none => none
        | some n => parseUEsc r2 n
      | _ => none
    else
      match escMap e with
      | none => none
      | some c => some ([c], r)

/-- Scanning a low surrogate consumes six characters. -/
theorem lowSurrScan_len {r : List Char} {p : Nat × List Char}
    (h : lowSurrScan r = some p) : p.2.length + 6 = r.length := by
  unfold lowSurrScan at h
  split at h
  · split at h
    · split at h
      · cases h; simp_arith
      · exact absurd h (by simp)
    · exact absurd h (by simp)
  · exact absurd h (by simp)

/-- A successful `parseUEsc` never grows the input. -/
theorem parseUEsc_len {r2 : List Char} {n : Nat} {p : List Char × List Char}
    (h : parseUEsc r2 n = some p) : p.2.length ≤ r2.length := by
  unfold parseUEsc at h
  split at h
  · split at h
    · rename_i q hq
      have := lowSurrScan_len hq
      cases h
      simp only
      omega
    · cases h
      exact Nat.le_refl _
  · cases h
    exact Nat.le_refl _

/-- A successful escape parse strictly shrinks the input. -/
theorem parseOneEsc_len {r : List Char} {p : List Char × List Char}
    (h : parseOneEsc r = some p) : p.2.length < r.length := by
  unfold parseOneEsc at h
  split at h
  · exact absurd h (by simp)
  · rename_i e r2
    split at h
    · split at h
      · split at h
        · exact absurd h (by simp)
        · have := parseUEsc_len h
          simp_arith
          omega
      · exact absurd h (by simp)
    · split at h
      · exact absurd h (by simp)
      · cases h; simp_arith

/-- Parse the body of a JSON string, the opening quote already consumed;
returns the decoded content and the input after the closing quote.
Raw control characters are rejected (CPython `strict=True`). The fuel is
structural bookkeeping only: every step consumes at least one input
character, so callers passing `length + 1` never exhaust it. -/
def parseStrBody : Nat → List Char → Option (List Char × List Char)
  | 0, _ => none
  | _ + 1, [] => none
  | Nat.succ fuel, c :: r =>
    if c = '"' then some ([], r)
    else if c = '\\' then
      match parseOneEsc r with
      | none => none
      | some p => (parseStrBody fuel p.2).map (fun q => (p.1 ++ q.1, q.2))
    else if c.toNat < 0x20 then none
    else consStr c (parseStrBody fuel r)

/-- Insert a key/value pair as CPython dict assignment does: an existing
key keeps its position and takes the new value, a new key is appended. -/
def objUpd : List (List Char × Json) → List Char → Json →
    List (List Char × Json)
  | [], k, v => [(k, v)]
  | (k2, v2) :: t, k, v =>
    if k2 = k then (k2, v) :: t else (k2, v2) :: objUpd t k v

mutual

/-- Parse one JSON value at the head of the input (no leading white-space).
Fuel bounds the `value → elements → value` descent; each such step
consumes at least one input character. -/
def parseValue : Nat → List Char → Option (Json × List Char)
  | 0, _ => none
  | Nat.succ fuel, s =>
    match s with
    | [] => none
    | c :: r =>
      if c = 'n' then
        if listIsInit (['u', 'l', 'l']) r then some (.null, r.drop 3) else none
      else if c = 't' then
        if listIsInit (['r', 'u', 'e']) r then some (.bool true, r.drop 3) else none
      else if c = 'f' then
        if listIsInit (['a', 'l', 's', 'e']) r then some (.bool false, r.drop 4) else none
      else if c = 'N' then
        if listIsInit (['a', 'N']) r then some (.num ['N', 'a', 'N'], r.drop 2) else none
      else if c = 'I' then
        if listIsInit (['n', 'f', 'i', 'n', 'i', 't', 'y']) r then
          some (.num (['I', 'n', 'f', 'i', 'n', 'i', 't', 'y']), r.drop 7)
        else none
      else if c = '-' && listIsInit (['I', 'n', 'f', 'i', 'n', 'i', 't', 'y']) r then
        some (.num ('-' :: ['I', 'n', 'f', 'i', 'n', 'i', 't', 'y']), r.drop 8)
      else if c = '"' then
        (parseStrBody (r.length + 1) r).map (fun p => (Json.str p.1, p.2))
      else if c = '[' then
        match skipJsonWs r with
        | [] => none
        | c1 :: r1 =>
          if c1 = ']' then some (.arr [], r1)
          else (parseElems fuel (c1 :: r1)).map (fun p => (Json.arr p.1, p.2))
      else if c = '\x7b' then
        match skipJsonWs r with
        | [] => none
        | c1 :: r1 =>
          if c1 = '\x7d' then some (.obj [], r1)
          else (parseMembers fuel (c1 :: r1) []).map (fun p => (Json.obj p.1, p.2))
      else
        (scanNumber (c :: r)).map (fun p => (Json.num p.1, p.2))

/-- Parse a non-empty comma-separated element list up to and including the
closing `]`. -/
def parseElems : Nat → List Char → Option (List Json × List Char)
  | 0, _ => none
  | Nat.succ fuel, s =>
    match parseValue fuel s with
    | none => none
    | some (v, r) =>
      match skipJsonWs r with
      | [] => none
      | c :: r2 =>
        if c = ',' then
          match parseElems fuel (skipJsonWs r2) with
          | none => none
          | some (vs, r3) => some (v :: vs, r3)
        else if c = ']' then some ([v], r2)
        else none

/-- Parse a non-empty member list up to and including the closing brace,
accumulating pairs with dict-insertion semantics. -/
def parseMembers : Nat → List Char → List (List Char × Json) →
    Option (List (List Char × Json) × List Char)
  | 0, _, _ => none
  | Nat.succ fuel, s, acc =>
    match s with
    | [] => none
    | c :: r =>
      if c = '"' then
        match parseStrBody (r.length + 1) r with
        | none => none
        | some (k, r1) =>
          match skipJsonWs r1 with
          | [] => none
          | c2 :: r2 =>
            if c2 = ':' then
              match parseValue fuel (skipJsonWs r2) with
              | none => none
              | some (v, r3) =>
                match skipJsonWs r3 with
                | [] => none
                | c3 :: r4 =>
                  if c3 = ',' then
                    parseMembers fuel (skipJsonWs r4) (objUpd acc k v)
                  else if c3 = '\x7d' then some (objUpd acc k v, r4)
                  else none
            else none
      else none

end

/-- Model of Python `json.loads` on decoded text: skip surrounding
white-space, parse exactly one value, reject trailing data. -/
def jsonLoads (s : List Char) : Option Json :=
  let s1 := skipJsonWs s
  match parseValue (s1.length + 1) s1 with
  | none => none
  | some (v, r) => if (skipJsonWs r).isEmpty then some v else none

/-! A model of Python `json.dumps` with its default arguments
(`ensure_ascii=True`, item separator `", "`, key separator `": "`).
`num` lexemes print verbatim; Python prints the converted `int`/`float`
value instead, whose canonical float formatting is outside the model. -/

/-- Lower-case hexadecimal digit for a value below 16. -/
def hexDig (n : Nat) : Char :=
  if n < 10 then Char.ofNat (48 + n) else Char.ofNat (87 + n)

/-- Four-digit hexadecimal rendering of a value below 0x10000. -/
def toHex4 (n : Nat) : List Char :=
  [hexDig (n / 4096 % 16), hexDig (n / 256 % 16), hexDig (n / 16 % 16), hexDig (n % 16)]

/-- Escape one character as CPython's json encoder does with
`ensure_ascii=True`: printable ASCII other than quote and backslash stays
literal, the familiar controls use short escapes, everything else becomes
`\uXXXX`, astral code points become a surrogate pair. -/
def escChar (c : Char) : List Char :=
  if c = '"' then ['\\', '"']
  else if c = '\\' then ['\\', '\\']
  else if c = '\n' then ['\\', 'n']
  else if c = '\t' then ['\\', 't']
  else if c = '\r' then ['\\', 'r']
  else if c = '\x08' then ['\\', 'b']
  else if c = '\x0c' then ['\\', 'f']
  else if 0x20 ≤ c.toNat && c.toNat ≤ 0x7e then [c]
  else if c.toNat < 0x10000 then '\\' :: 'u' :: toHex4 c.toNat
  else
    ('\\' :: 'u' :: toHex4 (0xD800 + (c.toNat - 0x10000) / 0x400)) ++
      ('\\' :: 'u' :: toHex4 (0xDC00 + (c.toNat - 0x10000) % 0x400))

/-- Escape a whole string body. -/
def strEsc (s : List Char) : List Char := s.foldr (fun c acc => escChar c ++ acc) []

/-- Serialize an object key. -/
def dumpKey (k : List Char) : List Char := '"' :: (strEsc k ++ ['"'])

mutual

/-- Serialize a JSON value (Python `json.dumps` with default arguments). -/
def dumpsV : Json → List Char
  | .null => (['n', 'u', 'l', 'l'] : List Char)
  | .bool true => (['t', 'r', 'u', 'e'] : List Char)
  | .bool false => (['f', 'a', 'l', 's', 'e'] : List Char)
  | .num lex => lex
  | .str s => '"' :: (strEsc s ++ ['"'])
  | .arr [] => ['[', ']']
  | .arr (x :: xs) => '[' :: ((dumpsV x ++ dumpsArrTail xs) ++ [']'])
  | .obj [] => ['\x7b', '\x7d']
  | .obj (m :: ms) => '\x7b' :: ((dumpMember m ++ dumpsObjTail ms) ++ ['\x7d'])

/-- Serialize one object member, `": "` separated. -/
def dumpMember : List Char × Json → List Char
  | (k, v) => dumpKey k ++ (':' :: ' ' :: dumpsV v)

/-- Serialize the remaining array elements, each preceded by `", "`. -/
def dumpsArrTail : List Json → List Char
  | [] => []
  | x :: xs => ',' :: ' ' :: (dumpsV x ++ dumpsArrTail xs)

/-- Serialize the remaining object members, each preceded by `", "`. -/
def dumpsObjTail : List (List Char × Json) → List Char
  | [] => []
  | m :: ms => ',' :: ' ' :: (dumpMember m ++ dumpsObjTail ms)

end

/-- The three non-lexical numeric constants `json.loads` accepts. -/
def numConst (lex : List Char) : Bool :=
  lex == ['N', 'a', 'N'] ||
  lex == ['I', 'n', 'f', 'i', 'n', 'i', 't', 'y'] ||
  lex == '-' :: ['I', 'n', 'f', 'i', 'n', 'i', 't', 'y']

/-- A stored numeric lexeme is one the scanner itself would produce:
either one of the constants or a full number token. -/
def numLexOk (lex : List Char) : Bool :=
  numConst lex || scanNumber lex == some (lex, [])

mutual

/-- Well-formed JSON values: numeric lexemes are genuine number tokens
and object keys are pairwise distinct — exactly the shapes `jsonLoads`
itself can produce. -/
def wfJson : Json → Bool
  | .null => true
  | .bool _ => true
  | .num lex => numLexOk lex
  | .str _ => true
  | .arr xs => wfList xs
  | .obj ms => decide ((ms.map Prod.fst).Nodup) && wfMembers ms

/-- Well-formedness of a list of values. -/
def wfList : List Json → Bool
  | [] => true
  | x :: xs => wfJson x && wfList xs

/-- Well-formedness of the values of a member list. -/
def wfMembers : List (List Char × Json) → Bool
  | [] => true
  | (_, v) :: ms => wfJson v && wfMembers ms

end

mutual

/-- Fuel needed by `parseValue` to parse this value. -/
def jfuelV : Json → Nat
  | .arr (x :: xs) => 1 + jfuelElems (x :: xs)
  | .obj (m :: ms) => 1 + jfuelMembers (m :: ms)
  | _ => 1

/-- Fuel needed by `parseElems` for this element list. -/
def jfuelElems : List Json → Nat
  | [] => 0
  | x :: xs => 1 + max (jfuelV x) (jfuelElems xs)

/-- Fuel needed by `parseMembers` for this member list. -/
def jfuelMembers : List (List Char × Json) → Nat
  | [] => 0
  | (_, v) :: ms => 1 + max (jfuelV v) (jfuelMembers ms)

end

/-- Input whose head cannot extend a preceding number token. -/
def numSafe : List Char → Bool
  | [] => true
  | c :: _ => !(isDigit09 c || c = '.' || c = 'e' || c = 'E' || c = '+' || c = '-')

/-! Round trip: `jsonLoads` inverts the serializer on well-formed values.
The development follows the usual codec pattern: per-token append lemmas
(`X (tok ++ rest) = (tok, rest)` under a side condition on `rest`'s head),
then a strong induction on the parser fuel. -/

/-- Character equality is code-point equality. -/
theorem char_eq_iff_toNat (a b : Char) : a = b ↔ a.toNat = b.toNat := by
  rw [Char.ext_iff]
  constructor
  · intro h; simp [Char.toNat, h]
  · intro h; exact UInt32.eq_of_val_eq (Fin.eq_of_val_eq h)

/-- Character order is code-point order. -/
theorem char_le_iff_toNat (a b : Char) : a ≤ b ↔ a.toNat ≤ b.toNat := by
  rw [Char.le_def]; rfl

/-- No `Char` carries a surrogate code point. -/
theorem char_not_surrogate (c : Char) : c.toNat < 0xD800 ∨ 0xE000 ≤ c.toNat := by
  have h := c.valid
  rcases h with h | h
  · have : c.toNat < 0xd800 := h
    omega
  · obtain ⟨h1, h2⟩ := h
    have g1 : (0xdfff : Nat) < c.toNat := h1
    have g2 : c.toNat < 0x110000 := h2
    omega

/-- Every `Char` code point is below 0x110000. -/
theorem char_lt_max (c : Char) : c.toNat < 0x110000 := by
  have h := c.valid
  rcases h with h | h
  · have : c.toNat < 0xd800 := h; omega
  · exact h.2

/-- A digit character is none of the listed structural characters. -/
theorem digit_toNat {c : Char} (h : isDigit09 c = true) :
    48 ≤ c.toNat ∧ c.toNat ≤ 57 := by
  unfold isDigit09 at h
  simp only [Bool.and_eq_true, decide_eq_true_eq] at h
  obtain ⟨h1, h2⟩ := h
  exact ⟨(char_le_iff_toNat _ _).mp h1, (char_le_iff_toNat _ _).mp h2⟩

/-- Rule out one concrete character by its code point. -/
theorem ne_of_toNat_ne {c x : Char} (h : c.toNat ≠ x.toNat) : c ≠ x := by
  intro he; exact h ((char_eq_iff_toNat c x).mp he)

/-- Skipping white-space is the identity when the head is not white-space. -/
theorem skipJsonWs_nonws {c : Char} (l : List Char) (h : isJsonWs c = false) :
    skipJsonWs (c :: l) = c :: l := by
  simp [skipJsonWs, List.dropWhile, h]

/-- Skipping white-space passes over a space. -/
theorem skipJsonWs_space (l : List Char) : skipJsonWs (' ' :: l) = skipJsonWs l := by
  simp [skipJsonWs, List.dropWhile, isJsonWs]

/-- `listIsInit` holds of any extension of an initial segment. -/
theorem listIsInit_append (p w : List Char) : listIsInit p (p ++ w) = true := by
  induction p with
  | nil => simp [listIsInit]
  | cons c t ih => simp [listIsInit, ih]

/-- Dropping the length of an initial segment recovers the extension. -/
theorem drop_len_append (p w : List Char) : (p ++ w).drop p.length = w := by
  simp

/-- When every element of `t` satisfies `p` and `w` opens with a failing
element, the split of `t ++ w` is `(t, w)`. -/
theorem takeWhile_all_append {p : Char → Bool} {t w : List Char}
    (ht : t.all p = true) (hw : w.takeWhile p = []) :
    (t ++ w).takeWhile p = t ∧ (t ++ w).dropWhile p = w := by
  induction t with
  | nil =>
    cases w with
    | nil => simp
    | cons c w2 =>
      by_cases hc : p c
      · simp [List.takeWhile, hc] at hw
      · simp only [Bool.not_eq_true] at hc
        simp [List.takeWhile, List.dropWhile, hc]
  | cons c t2 ih =>
    simp only [List.all_cons, Bool.and_eq_true] at ht
    have := ih ht.2
    simp [List.takeWhile, List.dropWhile, ht.1, this.1, this.2]

/-- When the scan already stops inside `t`, appending `w` changes nothing
but the remainder. -/
theorem takeWhile_stop_append {p : Char → Bool} {t : List Char} (w : List Char)
    (ht : t.dropWhile p ≠ []) :
    (t ++ w).takeWhile p = t.takeWhile p ∧
      (t ++ w).dropWhile p = t.dropWhile p ++ w := by
  induction t with
  | nil => simp [List.dropWhile] at ht
  | cons c t2 ih =>
    by_cases hc : p c
    · simp only [List.dropWhile, hc] at ht
      have := ih ht
      simp [List.takeWhile, List.dropWhile, hc, this.1, this.2, ht]
    · simp only [Bool.not_eq_true] at hc
      simp [List.takeWhile, List.dropWhile, hc]

/-- A list fully consumed by `dropWhile` satisfies `p` everywhere. -/
theorem all_of_dropWhile_nil {p : Char → Bool} {t : List Char}
    (h : t.dropWhile p = []) : t.all p = true := by
  induction t with
  | nil => simp
  | cons c t2 ih =>
    by_cases hc : p c
    · simp only [List.dropWhile, hc] at h
      simp [hc, ih h]
    · simp only [Bool.not_eq_true] at hc
      simp [List.dropWhile, hc] at h

/-- Appending past a digit span that the addition cannot extend. -/
theorem spanDigits_append (t w : List Char)
    (hw : (spanDigits t).2 = [] → numSafe w = true) :
    spanDigits (t ++ w) = ((spanDigits t).1, (spanDigits t).2 ++ w) := by
  by_cases hd : t.dropWhile isDigit09 = []
  · have ht : t.all isDigit09 = true := all_of_dropWhile_nil hd
    have hw2 := hw (by simp [spanDigits, hd])
    have hwt : w.takeWhile isDigit09 = [] := by
      cases w with
      | nil => simp
      | cons c w2 =>
        unfold numSafe at hw2
        simp only [Bool.not_eq_true', Bool.or_eq_false_iff] at hw2
        simp [List.takeWhile, hw2.1.1]
    have h2 := takeWhile_all_append ht hwt
    have h3 : t.takeWhile isDigit09 = t := by
      conv_rhs => rw [← List.takeWhile_append_dropWhile isDigit09 t]
      simp [hd]
    simp [spanDigits, h2.1, h2.2, h3, hd]
  · have h2 := takeWhile_stop_append w hd
    simp [spanDigits, h2.1, h2.2]

/-- Head facts packaged out of `numSafe`. -/
theorem numSafe_head {c : Char} {w : List Char} (h : numSafe (c :: w) = true) :
    isDigit09 c = false ∧ c ≠ '.' ∧ c ≠ 'e' ∧ c ≠ 'E' ∧ c ≠ '+' ∧ c ≠ '-' := by
  unfold numSafe at h
  simp only [Bool.not_eq_true', Bool.or_eq_false_iff, decide_eq_false_iff_not] at h
  tauto

/-- Appending non-extending input past a scanned integer part. -/
theorem scanIntPart_append {s w ip s2 : List Char}
    (h : scanIntPart s = some (ip, s2)) (hw : numSafe w = true) :
    scanIntPart (s ++ w) = some (ip, s2 ++ w) := by
  cases s with
  | nil => simp [scanIntPart] at h
  | cons c t =>
    by_cases hc : c = '0'
    · subst hc
      simp only [scanIntPart, if_pos rfl, Option.some.injEq, Prod.mk.injEq] at h
      obtain ⟨rfl, rfl⟩ := h
      simp [scanIntPart]
    · by_cases hd : isDigit09 c = true
      · simp only [scanIntPart, if_neg hc, if_pos hd, Option.some.injEq, Prod.mk.injEq] at h
        obtain ⟨rfl, rfl⟩ := h
        have hsp := spanDigits_append t w (fun _ => hw)
        simp [scanIntPart, hc, hd, hsp]
      · simp [scanIntPart, hc, hd] at h

/-- Appending non-extending input past a scanned fraction part. -/
theorem scanFracPart_append (s w : List Char) (hw : numSafe w = true) :
    scanFracPart (s ++ w) = ((scanFracPart s).1, (scanFracPart s).2 ++ w) := by
  cases s with
  | nil =>
    cases w with
    | nil => simp [scanFracPart]
    | cons c w2 =>
      have hf := numSafe_head hw
      simp [scanFracPart, hf.2.1]
  | cons c t =>
    by_cases hc : c = '.'
    · subst hc
      have hsp := spanDigits_append t w (fun _ => hw)
      by_cases he : (spanDigits t).1 = []
      · simp [scanFracPart, hsp, he]
      · simp [scanFracPart, hsp, he]
    · simp [scanFracPart, hc]

/-- Appending non-extending input past a scanned exponent part. -/
theorem scanExpPart_append (s w : List Char) (hw : numSafe w = true) :
    scanExpPart (s ++ w) = ((scanExpPart s).1, (scanExpPart s).2 ++ w) := by
  cases s with
  | nil =>
    cases w with
    | nil => simp [scanExpPart]
    | cons c w2 =>
      have hf := numSafe_head hw
      simp [scanExpPart, hf.2.2.1, hf.2.2.2.1]
  | cons e t =>
    by_cases he : (e = 'e' || e = 'E') = true
    · cases t with
      | nil =>
        cases w with
        | nil => simp [scanExpPart, he]
        | cons c w2 =>
          have hf := numSafe_head hw
          simp [scanExpPart, he, spanDigits, List.takeWhile, hf.1,
            hf.2.2.2.2.1, hf.2.2.2.2.2]
      | cons c t2 =>
        by_cases hs : (c = '+' || c = '-') = true
        · have hsp := spanDigits_append t2 w (fun _ => hw)
          by_cases hd : (spanDigits t2).1 = []
          · simp [scanExpPart, he, hs, hsp, hd]
          · simp [scanExpPart, he, hs, hsp, hd]
        · have hsp := spanDigits_append (c :: t2) w (fun _ => hw)
          rw [List.cons_append] at hsp
          by_cases hd : (spanDigits (c :: t2)).1 = []
          · simp [scanExpPart, he, hs, hsp, hd]
          · simp [scanExpPart, he, hs, hsp, hd]
    · simp [scanExpPart, he]

/-- A completely scanned number lexeme still scans to itself when input
that cannot extend it is appended. -/
theorem scanNumber_append {lex w : List Char}
    (h : scanNumber lex = some (lex, [])) (hw : numSafe w = true) :
    scanNumber (lex ++ w) = some (lex, w) := by
  cases lex with
  | nil => simp [scanNumber, scanSign, scanIntPart] at h
  | cons c t =>
    by_cases hc : c = '-'
    · subst hc
      simp only [scanNumber, scanSign, List.cons_append, ↓reduceIte] at h ⊢
      cases hsi : scanIntPart t with
      | none => rw [hsi] at h; simp at h
      | some p =>
        obtain ⟨ip, s2⟩ := p
        rw [hsi] at h
        rw [scanIntPart_append hsi hw]
        simp only [Option.some.injEq, Prod.mk.injEq] at h
        simp only [scanFracPart_append s2 w hw, scanExpPart_append _ w hw,
          Option.some.injEq, Prod.mk.injEq]
        constructor
        · exact h.1
        · rw [h.2]; rfl
    · simp only [scanNumber, scanSign, List.cons_append, if_neg hc] at h ⊢
      cases hsi : scanIntPart (c :: t) with
      | none => rw [hsi] at h; simp at h
      | some p =>
        obtain ⟨ip, s2⟩ := p
        rw [hsi] at h
        rw [← List.cons_append c t w, scanIntPart_append hsi hw]
        simp only [Option.some.injEq, Prod.mk.injEq] at h
        simp only [scanFracPart_append s2 w hw, scanExpPart_append _ w hw,
          Option.some.injEq, Prod.mk.injEq]
        constructor
        · exact h.1
        · rw [h.2]; rfl

/-- A scanned lexeme opens with a minus sign or a digit. -/
theorem scanNumber_head {lex : List Char}
    (h : scanNumber lex = some (lex, [])) :
    ∃ c t, lex = c :: t ∧ (c = '-' ∨ isDigit09 c = true) := by
  cases lex with
  | nil => simp [scanNumber, scanSign, scanIntPart] at h
  | cons c t =>
    refine ⟨c, t, rfl, ?_⟩
    by_cases hc : c = '-'
    · exact Or.inl hc
    · right
      by_cases h0 : c = '0'
      · subst h0; decide
      · by_cases hd : isDigit09 c = true
        · exact hd
        · simp [scanNumber, scanSign, hc, scanIntPart, h0, hd] at h

/-- Behind a minus sign, a scanned lexeme continues with a digit. -/
theorem scanNumber_neg_head {t : List Char}
    (h : scanNumber ('-' :: t) = some ('-' :: t, [])) :
    ∃ d t2, t = d :: t2 ∧ isDigit09 d = true := by
  cases t with
  | nil => simp [scanNumber, scanSign, scanIntPart] at h
  | cons d t2 =>
    refine ⟨d, t2, rfl, ?_⟩
    by_cases h0 : d = '0'
    · subst h0; decide
    · by_cases hd : isDigit09 d = true
      · exact hd
      · simp [scanNumber, scanSign, scanIntPart, h0, hd] at h

/-- `hexVal` inverts `hexDig` on digit values. -/
theorem hexVal_hexDig : ∀ d, d < 16 → hexVal (hexDig d) = some d := by decide

/-- `hex4` inverts `toHex4` below 0x10000. -/
theorem hex4_toHex4 {n : Nat} (h : n < 0x10000) :
    hex4 (hexDig (n / 4096 % 16)) (hexDig (n / 256 % 16))
      (hexDig (n / 16 % 16)) (hexDig (n % 16)) = some n := by
  have hsum : n / 4096 % 16 * 4096 + n / 256 % 16 * 256 + n / 16 % 16 * 16 + n % 16 = n := by
    omega
  simp only [hex4, hexVal_hexDig _ (Nat.mod_lt _ (by decide)), hsum]

/-- An escape sequence is never empty. -/
theorem escChar_length_pos (c : Char) : 1 ≤ (escChar c).length := by
  unfold escChar
  split_ifs <;> simp

/-- The body escape of a string is at least as long as the string. -/
theorem strEsc_length (s : List Char) : s.length ≤ (strEsc s).length := by
  induction s with
  | nil => simp [strEsc]
  | cons c s2 ih =>
    have h1 := escChar_length_pos c
    have h2 : strEsc (c :: s2) = escChar c ++ strEsc s2 := by simp [strEsc]
    rw [h2, List.length_append, List.length_cons]
    omega

/-- Unfolding `parseStrBody` over a successfully parsed escape. -/
theorem parseStrBody_esc_some {r out rest : List Char} (f : Nat)
    (h : parseOneEsc r = some (out, rest)) :
    parseStrBody (f + 1) ('\\' :: r) =
      (parseStrBody f rest).map (fun q => (out ++ q.1, q.2)) := by
  simp [parseStrBody, h]

/-- `parseOneEsc` over a `\u` escape with readable payload. -/
theorem parseOneEsc_u {h1 h2 h3 h4 : Char} {r2 : List Char} {n : Nat}
    (hh : hex4 h1 h2 h3 h4 = some n) :
    parseOneEsc ('u' :: h1 :: h2 :: h3 :: h4 :: r2) = parseUEsc r2 n := by
  simp [parseOneEsc, hh]

/-- `parseUEsc` emits a plain code point away from the surrogate range. -/
theorem parseUEsc_bmp {n : Nat} (r2 : List Char)
    (hns : n < 0xD800 ∨ 0xE000 ≤ n) :
    parseUEsc r2 n = some ([Char.ofNat n], r2) := by
  have hb1 : (0xD800 ≤ n && n < 0xDC00) = false := by
    simp only [Bool.and_eq_false_iff, decide_eq_false_iff_not]
    rcases hns with h | h
    · exact Or.inl (by omega)
    · exact Or.inr (by omega)
  have hb2 : (0xD800 ≤ n && n < 0xE000) = false := by
    simp only [Bool.and_eq_false_iff, decide_eq_false_iff_not]
    rcases hns with h | h
    · exact Or.inl (by omega)
    · exact Or.inr (by omega)
  simp [parseUEsc, hb1, uChar, hb2]

/-- `lowSurrScan` reads a serialized low-surrogate escape. -/
theorem lowSurrScan_chunk {m : Nat} (hm : m < 0x10000)
    (hlo : (0xDC00 ≤ m && m < 0xE000) = true) (w : List Char) :
    lowSurrScan ('\\' :: 'u' :: (toHex4 m ++ w)) = some (m, w) := by
  rw [toHex4]
  simp only [List.cons_append, List.nil_append]
  simp [lowSurrScan, hex4_toHex4 hm, hlo]

/-- `parseUEsc` combines a high surrogate with a following low one. -/
theorem parseUEsc_hi {r2 rest : List Char} {n m : Nat}
    (hhi : (0xD800 ≤ n && n < 0xDC00) = true)
    (hscan : lowSurrScan r2 = some (m, rest)) :
    parseUEsc r2 n =
      some ([Char.ofNat (0x10000 + (n - 0xD800) * 0x400 + (m - 0xDC00))], rest) := by
  simp [parseUEsc, hhi, hscan]

/-- Parsing one `\uXXXX` chunk for a non-surrogate code point. -/
theorem parseStrBody_uchunk {n : Nat} (hn : n < 0x10000)
    (hns : n < 0xD800 ∨ 0xE000 ≤ n) (w : List Char) (f : Nat) :
    parseStrBody (f + 1) ('\\' :: 'u' :: (toHex4 n ++ w)) =
      consStr (Char.ofNat n) (parseStrBody f w) := by
  have h5 : parseOneEsc ('u' :: (toHex4 n ++ w)) = some ([Char.ofNat n], w) := by
    rw [toHex4]
    simp only [List.cons_append, List.nil_append]
    rw [parseOneEsc_u (hex4_toHex4 hn), parseUEsc_bmp w hns]
  rw [parseStrBody_esc_some f h5]
  simp [consStr]

/-- Parsing a surrogate-pair chunk for an astral code point. -/
theorem parseStrBody_pairchunk {n : Nat} (hn : 0x10000 ≤ n) (hlt : n < 0x110000)
    (w : List Char) (f : Nat) :
    parseStrBody (f + 1)
      ('\\' :: 'u' :: (toHex4 (0xD800 + (n - 0x10000) / 0x400) ++
        ('\\' :: 'u' :: (toHex4 (0xDC00 + (n - 0x10000) % 0x400) ++ w)))) =
      consStr (Char.ofNat n) (parseStrBody f w) := by
  have hq : (n - 0x10000) / 0x400 < 0x400 := by omega
  have hm := Nat.mod_lt (n - 0x10000) (show 0 < 0x400 by decide)
  have h1 : 0xD800 + (n - 0x10000) / 0x400 < 0x10000 := by omega
  have h2 : 0xDC00 + (n - 0x10000) % 0x400 < 0x10000 := by omega
  have hhi : (0xD800 ≤ 0xD800 + (n - 0x10000) / 0x400 &&
      0xD800 + (n - 0x10000) / 0x400 < 0xDC00) = true := by
    simp only [Bool.and_eq_true, decide_eq_true_eq]
    omega
  have hlo : (0xDC00 ≤ 0xDC00 + (n - 0x10000) % 0x400 &&
      0xDC00 + (n - 0x10000) % 0x400 < 0xE000) = true := by
    simp only [Bool.and_eq_true, decide_eq_true_eq]
    omega
  have hcomb : 0x10000 + (0xD800 + (n - 0x10000) / 0x400 - 0xD800) * 0x400 +
      (0xDC00 + (n - 0x10000) % 0x400 - 0xDC00) = n := by
    have := Nat.div_add_mod (n - 0x10000) 0x400
    omega
  have hscan := lowSurrScan_chunk h2 hlo w
  have h5 : parseOneEsc
      ('u' :: (toHex4 (0xD800 + (n - 0x10000) / 0x400) ++
        ('\\' :: 'u' :: (toHex4 (0xDC00 + (n - 0x10000) % 0x400) ++ w)))) =
      some ([Char.ofNat n], w) := by
    conv_lhs => rw [toHex4]
    simp only [List.cons_append, List.nil_append]
    rw [parseOneEsc_u (hex4_toHex4 h1), parseUEsc_hi hhi hscan, hcomb]
  rw [parseStrBody_esc_some f h5]
  simp [consStr]

/-- Parsing one escaped character chunk of serializer output emits
exactly that character. -/
theorem parseStrBody_chunk (c : Char) (w : List Char) (f : Nat) :
    parseStrBody (f + 1) (escChar c ++ w) = consStr c (parseStrBody f w) := by
  by_cases h1 : c = '"'
  · subst h1; simp [escChar, parseStrBody, parseOneEsc, escMap, consStr]
  · by_cases h2 : c = '\\'
    · subst h2; simp [escChar, parseStrBody, parseOneEsc, escMap, consStr]
    · by_cases h3 : c = '\n'
      · subst h3; simp [escChar, parseStrBody, parseOneEsc, escMap, consStr]
      · by_cases h4 : c = '\t'
        · subst h4; simp [escChar, parseStrBody, parseOneEsc, escMap, consStr]
        · by_cases h5 : c = '\r'
          · subst h5; simp [escChar, parseStrBody, parseOneEsc, escMap, consStr]
          · by_cases h6 : c = '\x08'
            · subst h6; simp [escChar, parseStrBody, parseOneEsc, escMap, consStr]
            · by_cases h7 : c = '\x0c'
              · subst h7; simp [escChar, parseStrBody, parseOneEsc, escMap, consStr]
              · by_cases h8 : (0x20 ≤ c.toNat ∧ c.toNat ≤ 0x7e)
                · have e8 : (0x20 ≤ c.toNat && c.toNat ≤ 0x7e) = true := by
                    simp only [Bool.and_eq_true, decide_eq_true_eq]
                    exact h8
                  simp only [escChar, if_neg h1, if_neg h2, if_neg h3, if_neg h4,
                    if_neg h5, if_neg h6, if_neg h7, e8, if_pos rfl]
                  simp only [List.cons_append, List.nil_append, parseStrBody,
                    if_neg h1, if_neg h2]
                  rw [if_neg (by omega)]
                  simp
                · have e8 : ¬ (0x20 ≤ c.toNat && c.toNat ≤ 0x7e) = true := by
                    simp only [Bool.and_eq_true, decide_eq_true_eq]
                    exact h8
                  by_cases h9 : c.toNat < 0x10000
                  · have hns := char_not_surrogate c
                    simp only [escChar, if_neg h1, if_neg h2, if_neg h3, if_neg h4,
                      if_neg h5, if_neg h6, if_neg h7, if_neg e8, if_pos h9,
                      List.cons_append]
                    rw [parseStrBody_uchunk h9 hns w f, Char.ofNat_toNat]
                  · have hlt := char_lt_max c
                    simp only [escChar, if_neg h1, if_neg h2, if_neg h3, if_neg h4,
                      if_neg h5, if_neg h6, if_neg h7, if_neg e8, if_neg h9,
                      List.cons_append, List.append_assoc, List.nil_append]
                    rw [parseStrBody_pairchunk (by omega) hlt w f, Char.ofNat_toNat]

/-- A digit differs from any character whose code point is outside the
digit range. -/
theorem digit_ne {c x : Char} (h : isDigit09 c = true)
    (hx : x.toNat < 48 ∨ 57 < x.toNat) : c ≠ x := by
  have hb := digit_toNat h
  exact ne_of_toNat_ne (by omega)

/-- A digit is not JSON white-space. -/
theorem digit_not_ws {c : Char} (h : isDigit09 c = true) : isJsonWs c = false := by
  unfold isJsonWs
  have hb := digit_toNat h
  have h1 : c ≠ ' ' := ne_of_toNat_ne (by
    have e : (' ' : Char).toNat = 32 := rfl
    omega)
  have h2 : c ≠ '\t' := ne_of_toNat_ne (by
    have e : ('\t' : Char).toNat = 9 := rfl
    omega)
  have h3 : c ≠ '\n' := ne_of_toNat_ne (by
    have e : ('\n' : Char).toNat = 10 := rfl
    omega)
  have h4 : c ≠ '\r' := ne_of_toNat_ne (by
    have e : ('\r' : Char).toNat = 13 := rfl
    omega)
  simp [h1, h2, h3, h4]

/-- The forms a stored numeric lexeme may take. -/
theorem numLexOk_cases {lex : List Char} (h : numLexOk lex = true) :
    lex = ['N', 'a', 'N'] ∨ lex = ['I', 'n', 'f', 'i', 'n', 'i', 't', 'y'] ∨
      lex = '-' :: ['I', 'n', 'f', 'i', 'n', 'i', 't', 'y'] ∨
      scanNumber lex = some (lex, []) := by
  unfold numLexOk numConst at h
  simp only [Bool.or_eq_true, beq_iff_eq] at h
  tauto

/-- The parser inverts the string-body serializer. -/
theorem parseStrBody_dumps (s : List Char) : ∀ f w, s.length < f →
    parseStrBody f (strEsc s ++ ('"' :: w)) = some (s, w) := by
  induction s with
  | nil =>
    intro f w hf
    cases f with
    | zero => omega
    | succ f2 => simp [strEsc, parseStrBody]
  | cons c s2 ih =>
    intro f w hf
    cases f with
    | zero => omega
    | succ f2 =>
      have hstep : strEsc (c :: s2) = escChar c ++ strEsc s2 := by
        simp [strEsc]
      rw [hstep, List.append_assoc, parseStrBody_chunk c _ f2,
        ih f2 w (by simp at hf; omega)]
      simp [consStr]

/-- Parsing serialized `null`. -/
theorem parseValue_null (f : Nat) (w : List Char) :
    parseValue (f + 1) (['n', 'u', 'l', 'l'] ++ w) = some (.null, w) := by
  simp [parseValue, listIsInit]

/-- Parsing serialized `true`. -/
theorem parseValue_true (f : Nat) (w : List Char) :
    parseValue (f + 1) (['t', 'r', 'u', 'e'] ++ w) = some (.bool true, w) := by
  simp [parseValue, listIsInit]

/-- Parsing serialized `false`. -/
theorem parseValue_false (f : Nat) (w : List Char) :
    parseValue (f + 1) (['f', 'a', 'l', 's', 'e'] ++ w) = some (.bool false, w) := by
  simp [parseValue, listIsInit]

/-- Parsing the serialized `NaN` constant. -/
theorem parseValue_nan (f : Nat) (w : List Char) :
    parseValue (f + 1) (['N', 'a', 'N'] ++ w) = some (.num ['N', 'a', 'N'], w) := by
  simp [parseValue, listIsInit]

/-- Parsing the serialized `Infinity` constant. -/
theorem parseValue_inf (f : Nat) (w : List Char) :
    parseValue (f + 1) (['I', 'n', 'f', 'i', 'n', 'i', 't', 'y'] ++ w) =
      some (.num ['I', 'n', 'f', 'i', 'n', 'i', 't', 'y'], w) := by
  simp [parseValue, listIsInit]

/-- Parsing the serialized `-Infinity` constant. -/
theorem parseValue_ninf (f : Nat) (w : List Char) :
    parseValue (f + 1) ('-' :: ['I', 'n', 'f', 'i', 'n', 'i', 't', 'y'] ++ w) =
      some (.num ('-' :: ['I', 'n', 'f', 'i', 'n', 'i', 't', 'y']), w) := by
  simp [parseValue, listIsInit]

/-- Parsing a serialized lexical number. -/
theorem parseValue_num_scan {lex : List Char} (f : Nat) {w : List Char}
    (hscan : scanNumber lex = some (lex, [])) (hw : numSafe w = true) :
    parseValue (f + 1) (lex ++ w) = some (.num lex, w) := by
  obtain ⟨c, t, rfl, hc⟩ := scanNumber_head hscan
  rcases hc with hc | hc
  · subst hc
    obtain ⟨d, t2, rfl, hd⟩ := scanNumber_neg_head hscan
    have hdI : ¬ ('I' : Char) = d := by
      intro h; rw [← h] at hd; exact absurd hd (by decide)
    have hsc := scanNumber_append hscan hw
    rw [List.cons_append] at hsc ⊢
    rw [List.cons_append] at hsc
    simp [parseValue, listIsInit, hdI, hsc]
  · have h1 : c ≠ 'n' := digit_ne hc (by decide)
    have h2 : c ≠ 't' := digit_ne hc (by decide)
    have h3 : c ≠ 'f' := digit_ne hc (by decide)
    have h4 : c ≠ 'N' := digit_ne hc (by decide)
    have h5 : c ≠ 'I' := digit_ne hc (by decide)
    have h6 : c ≠ '-' := digit_ne hc (by decide)
    have h7 : c ≠ '"' := digit_ne hc (by decide)
    have h8 : c ≠ '[' := digit_ne hc (by decide)
    have h9 : c ≠ '\x7b' := digit_ne hc (by decide)
    have hsc := scanNumber_append hscan hw
    rw [List.cons_append] at hsc ⊢
    simp [parseValue, h1, h2, h3, h4, h5, h6, h7, h8, h9, hsc]

/-- Parsing a serialized string literal. -/
theorem parseValue_str (s : List Char) (f : Nat) (w : List Char) :
    parseValue (f + 1) ('"' :: (strEsc s ++ ('"' :: w))) = some (.str s, w) := by
  have hs := parseStrBody_dumps s ((strEsc s).length + (w.length + 1) + 1) w (by
    have := strEsc_length s
    omega)
  simp [parseValue, hs]

/-- Heads of serialized values: never white-space, a closing bracket,
a closing brace, or a comma. -/
theorem dumpsV_head {v : Json} (hwf : wfJson v = true) :
    ∃ c t, dumpsV v = c :: t ∧ isJsonWs c = false ∧ c ≠ ']' ∧ c ≠ '\x7d' ∧
      c ≠ ',' := by
  cases v with
  | null => exact ⟨'n', _, rfl, by decide, by decide, by decide, by decide⟩
  | bool b =>
    cases b with
    | true => exact ⟨'t', _, rfl, by decide, by decide, by decide, by decide⟩
    | false => exact ⟨'f', _, rfl, by decide, by decide, by decide, by decide⟩
  | str s =>
    exact ⟨'"', _, rfl, by decide, by decide, by decide, by decide⟩
  | arr xs =>
    cases xs with
    | nil => exact ⟨'[', _, rfl, by decide, by decide, by decide, by decide⟩
    | cons x t => exact ⟨'[', _, rfl, by decide, by decide, by decide, by decide⟩
  | obj ms =>
    cases ms with
    | nil => exact ⟨'\x7b', _, rfl, by decide, by decide, by decide, by decide⟩
    | cons m t => exact ⟨'\x7b', _, rfl, by decide, by decide, by decide, by decide⟩
  | num lex =>
    have hok : numLexOk lex = true := hwf
    rcases numLexOk_cases hok with h | h | h | h
    · subst h; exact ⟨'N', _, rfl, by decide, by decide, by decide, by decide⟩
    · subst h; exact ⟨'I', _, rfl, by decide, by decide, by decide, by decide⟩
    · subst h; exact ⟨'-', _, rfl, by decide, by decide, by decide, by decide⟩
    · obtain ⟨c, t, he, hc⟩ := scanNumber_head h
      refine ⟨c, t, he, ?_, ?_, ?_, ?_⟩
      · rcases hc with hc | hc
        · subst hc; decide
        · exact digit_not_ws hc
      · rcases hc with hc | hc
        · subst hc; decide
        · exact digit_ne hc (by decide)
      · rcases hc with hc | hc
        · subst hc; decide
        · exact digit_ne hc (by decide)
      · rcases hc with hc | hc
        · subst hc; decide
        · exact digit_ne hc (by decide)

/-- A serialized member opens with a double quote. -/
theorem dumpMember_head (m : List Char × Json) :
    ∃ t, dumpMember m = '"' :: t := by
  obtain ⟨k, v⟩ := m
  refine ⟨(strEsc k ++ ['"']) ++ (':' :: ' ' :: dumpsV v), ?_⟩
  simp [dumpMember, dumpKey]

/-- An array tail followed by the closing bracket cannot extend a number. -/
theorem numSafe_arrTail (xs : List Json) (w : List Char) :
    numSafe (dumpsArrTail xs ++ (']' :: w)) = true := by
  cases xs with
  | nil => rfl
  | cons y ys => rfl

/-- An object tail followed by the closing brace cannot extend a number. -/
theorem numSafe_objTail (ms : List (List Char × Json)) (w : List Char) :
    numSafe (dumpsObjTail ms ++ ('\x7d' :: w)) = true := by
  cases ms with
  | nil => rfl
  | cons m ms2 => rfl

/-- Every value needs at least one unit of fuel. -/
theorem jfuelV_pos (v : Json) : 1 ≤ jfuelV v := by
  cases v with
  | arr xs => cases xs <;> simp_arith [jfuelV]
  | obj ms => cases ms <;> simp_arith [jfuelV]
  | null => simp [jfuelV]
  | bool b => simp [jfuelV]
  | num lex => simp [jfuelV]
  | str s => simp [jfuelV]

/-- Inserting a fresh key appends. -/
theorem objUpd_fresh {acc : List (List Char × Json)} {k : List Char} (v : Json)
    (h : ∀ m ∈ acc, m.1 ≠ k) : objUpd acc k v = acc ++ [(k, v)] := by
  induction acc with
  | nil => rfl
  | cons m t ih =>
    obtain ⟨k2, v2⟩ := m
    have hne : k2 ≠ k := h (k2, v2) (by simp)
    simp only [objUpd, if_neg hne, List.cons_append, List.cons.injEq, true_and]
    exact ih (fun a ha => h a (by simp [ha]))

/-- In a key-distinct member list, the keys in front are fresh. -/
theorem nodup_key_fresh {acc rest : List (List Char × Json)} {k : List Char}
    {v : Json}
    (h : ((acc ++ (k, v) :: rest).map Prod.fst).Nodup) : ∀ m ∈ acc, m.1 ≠ k := by
  intro m hm he
  rw [List.map_append] at h
  have hd := List.disjoint_of_nodup_append h
  have h1 : m.1 ∈ acc.map Prod.fst := List.mem_map_of_mem Prod.fst hm
  have h2 : m.1 ∈ ((k, v) :: rest).map Prod.fst := by
    rw [he, List.map_cons]
    exact List.mem_cons_self _ _
  exact hd h1 h2

/-- Parsing a serialized empty array. -/
theorem parseValue_arrnil (f : Nat) (w : List Char) :
    parseValue (f + 1) ('[' :: (']' :: w)) = some (.arr [], w) := by
  simp [parseValue, skipJsonWs, List.dropWhile, isJsonWs]

/-- Parsing a serialized empty object. -/
theorem parseValue_objnil (f : Nat) (w : List Char) :
    parseValue (f + 1) ('\x7b' :: ('\x7d' :: w)) = some (.obj [], w) := by
  simp [parseValue, skipJsonWs, List.dropWhile, isJsonWs]

/-- Stepping into a non-empty array body. -/
theorem parseValue_arr_step {R t0 : List Char} {c0 : Char} (f : Nat)
    (hR : R = c0 :: t0) (hws : isJsonWs c0 = false) (hne : c0 ≠ ']') :
    parseValue (f + 1) ('[' :: R) =
      (parseElems f R).map (fun p => (Json.arr p.1, p.2)) := by
  subst hR
  simp [parseValue, skipJsonWs_nonws _ hws, hne]

/-- Stepping into a non-empty object body. -/
theorem parseValue_obj_step {R t0 : List Char} {c0 : Char} (f : Nat)
    (hR : R = c0 :: t0) (hws : isJsonWs c0 = false) (hne : c0 ≠ '\x7d') :
    parseValue (f + 1) ('\x7b' :: R) =
      (parseMembers f R []).map (fun p => (Json.obj p.1, p.2)) := by
  subst hR
  simp [parseValue, skipJsonWs_nonws _ hws, hne]

/-- Fuel decomposition for element lists. -/
theorem jfuelElems_cons_le {x : Json} {xs : List Json} {f : Nat}
    (h : jfuelElems (x :: xs) ≤ f + 1) : jfuelV x ≤ f ∧ jfuelElems xs ≤ f := by
  have he : jfuelElems (x :: xs) = 1 + max (jfuelV x) (jfuelElems xs) := rfl
  rw [he] at h
  have hm : max (jfuelV x) (jfuelElems xs) ≤ f := by omega
  exact ⟨le_trans (Nat.le_max_left _ _) hm, le_trans (Nat.le_max_right _ _) hm⟩

/-- Fuel decomposition for member lists. -/
theorem jfuelMembers_cons_le {k : List Char} {v : Json}
    {ms : List (List Char × Json)} {f : Nat}
    (h : jfuelMembers ((k, v) :: ms) ≤ f + 1) :
    jfuelV v ≤ f ∧ jfuelMembers ms ≤ f := by
  have he : jfuelMembers ((k, v) :: ms) = 1 + max (jfuelV v) (jfuelMembers ms) := rfl
  rw [he] at h
  have hm : max (jfuelV v) (jfuelMembers ms) ≤ f := by omega
  exact ⟨le_trans (Nat.le_max_left _ _) hm, le_trans (Nat.le_max_right _ _) hm⟩

/-- The parser inverts the serializer: joint statement over values,
array element lists, and object member lists, by strong induction on the
parser fuel. -/
theorem parse_dumps_all : ∀ f : Nat,
    (∀ v w, wfJson v = true → jfuelV v ≤ f → numSafe w = true →
      parseValue f (dumpsV v ++ w) = some (v, w)) ∧
    (∀ x xs w, wfJson x = true → wfList xs = true → jfuelElems (x :: xs) ≤ f →
      parseElems f ((dumpsV x ++ dumpsArrTail xs) ++ (']' :: w)) =
        some (x :: xs, w)) ∧
    (∀ k v ms acc w, wfJson v = true → wfMembers ms = true →
      jfuelMembers ((k, v) :: ms) ≤ f →
      ((acc ++ (k, v) :: ms).map Prod.fst).Nodup →
      parseMembers f ((dumpMember (k, v) ++ dumpsObjTail ms) ++ ('\x7d' :: w)) acc =
        some (acc ++ (k, v) :: ms, w)) := by
  intro f
  induction f using Nat.strong_induction_on with
  | _ f ih =>
  refine ⟨?_, ?_, ?_⟩
  · intro v w hwf hfu hw
    obtain ⟨f2, rfl⟩ : ∃ f2, f = f2 + 1 := by
      have := jfuelV_pos v
      cases f with
      | zero => omega
      | succ f2 => exact ⟨f2, rfl⟩
    cases v with
    | null => exact parseValue_null f2 w
    | bool b =>
      cases b with
      | true => exact parseValue_true f2 w
      | false => exact parseValue_false f2 w
    | num lex =>
      have hok : numLexOk lex = true := hwf
      rcases numLexOk_cases hok with h | h | h | h
      · subst h; exact parseValue_nan f2 w
      · subst h; exact parseValue_inf f2 w
      · subst h; exact parseValue_ninf f2 w
      · exact parseValue_num_scan f2 h hw
    | str s =>
      have hsh : dumpsV (Json.str s) ++ w = '"' :: (strEsc s ++ ('"' :: w)) := by
        simp [dumpsV]
      rw [hsh]
      exact parseValue_str s f2 w
    | arr xs =>
      cases xs with
      | nil => exact parseValue_arrnil f2 w
      | cons x xs =>
        have hwf2 : wfJson x = true ∧ wfList xs = true := by
          have : wfList (x :: xs) = true := hwf
          simpa [wfList, Bool.and_eq_true] using this
        have hfu2 : jfuelElems (x :: xs) ≤ f2 := by
          have he : jfuelV (Json.arr (x :: xs)) = 1 + jfuelElems (x :: xs) := rfl
          rw [he] at hfu
          omega
        obtain ⟨c0, t0, he, hws, hbr, hbc, hcm⟩ := dumpsV_head hwf2.1
        have hR : (dumpsV x ++ dumpsArrTail xs) ++ (']' :: w) =
            c0 :: (t0 ++ dumpsArrTail xs ++ (']' :: w)) := by
          rw [he]; simp
        have hshape : dumpsV (Json.arr (x :: xs)) ++ w =
            '[' :: ((dumpsV x ++ dumpsArrTail xs) ++ (']' :: w)) := by
          simp [dumpsV]
        rw [hshape, parseValue_arr_step f2 hR hws hbr,
          (ih f2 (by omega)).2.1 x xs w hwf2.1 hwf2.2 hfu2]
        rfl
    | obj ms =>
      cases ms with
      | nil => exact parseValue_objnil f2 w
      | cons m ms2 =>
        obtain ⟨k, v⟩ := m
        have hwfobj : (decide ((((k, v) :: ms2).map Prod.fst).Nodup) &&
            wfMembers ((k, v) :: ms2)) = true := hwf
        simp only [Bool.and_eq_true, decide_eq_true_eq] at hwfobj
        have hwfm : wfJson v = true ∧ wfMembers ms2 = true := by
          have : wfMembers ((k, v) :: ms2) = true := hwfobj.2
          simpa [wfMembers, Bool.and_eq_true] using this
        have hfu2 : jfuelMembers ((k, v) :: ms2) ≤ f2 := by
          have he : jfuelV (Json.obj ((k, v) :: ms2)) =
              1 + jfuelMembers ((k, v) :: ms2) := rfl
          rw [he] at hfu
          omega
        obtain ⟨tm, hem⟩ := dumpMember_head (k, v)
        have hR : (dumpMember (k, v) ++ dumpsObjTail ms2) ++ ('\x7d' :: w) =
            '"' :: (tm ++ dumpsObjTail ms2 ++ ('\x7d' :: w)) := by
          rw [hem]; simp
        have hshape : dumpsV (Json.obj ((k, v) :: ms2)) ++ w =
            '\x7b' :: ((dumpMember (k, v) ++ dumpsObjTail ms2) ++ ('\x7d' :: w)) := by
          simp [dumpsV]
        rw [hshape, parseValue_obj_step f2 hR (by decide) (by decide),
          (ih f2 (by omega)).2.2 k v ms2 [] w hwfm.1 hwfm.2 hfu2
            (by rw [List.nil_append]; exact hwfobj.1)]
        simp
  · intro x xs w hwx hwxs hfu
    obtain ⟨f2, rfl⟩ : ∃ f2, f = f2 + 1 := by
      cases f with
      | zero =>
        exact absurd hfu (by
          have he : jfuelElems (x :: xs) = 1 + max (jfuelV x) (jfuelElems xs) := rfl
          rw [he]; omega)
      | succ f2 => exact ⟨f2, rfl⟩
    have hfux := (jfuelElems_cons_le hfu).1
    have hres := (ih f2 (by omega)).1 x (dumpsArrTail xs ++ (']' :: w)) hwx hfux
      (numSafe_arrTail xs w)
    rw [List.append_assoc]
    simp only [parseElems, hres]
    cases xs with
    | nil =>
      simp [dumpsArrTail, skipJsonWs_nonws _ (by decide : isJsonWs ']' = false)]
    | cons y ys =>
      have hwy : wfJson y = true ∧ wfList ys = true := by
        simpa [wfList, Bool.and_eq_true] using hwxs
      have hfuy := (jfuelElems_cons_le hfu).2
      obtain ⟨c1, t1, he1, hws1, hbr1, hbc1, hcm1⟩ := dumpsV_head hwy.1
      have hZ : (dumpsV y ++ dumpsArrTail ys) ++ (']' :: w) =
          c1 :: (t1 ++ dumpsArrTail ys ++ (']' :: w)) := by
        rw [he1]; simp
      have htail : dumpsArrTail (y :: ys) ++ (']' :: w) =
          ',' :: ' ' :: ((dumpsV y ++ dumpsArrTail ys) ++ (']' :: w)) := by
        simp [dumpsArrTail]
      rw [htail]
      simp only [skipJsonWs_nonws _ (by decide : isJsonWs ',' = false),
        if_pos rfl, skipJsonWs_space]
      rw [hZ, skipJsonWs_nonws _ hws1, ← hZ,
        (ih f2 (by omega)).2.1 y ys w hwy.1 hwy.2 hfuy]
      simp
  · intro k v ms acc w hwv hwm hfu hnd
    obtain ⟨f2, rfl⟩ : ∃ f2, f = f2 + 1 := by
      cases f with
      | zero =>
        exact absurd hfu (by
          have he : jfuelMembers ((k, v) :: ms) =
              1 + max (jfuelV v) (jfuelMembers ms) := rfl
          rw [he]; omega)
      | succ f2 => exact ⟨f2, rfl⟩
    have hfuv := (jfuelMembers_cons_le hfu).1
    have hshape : (dumpMember (k, v) ++ dumpsObjTail ms) ++ ('\x7d' :: w) =
        '"' :: (strEsc k ++ ('"' :: (':' :: ' ' ::
          (dumpsV v ++ (dumpsObjTail ms ++ ('\x7d' :: w)))))) := by
      simp [dumpMember, dumpKey]
    rw [hshape]
    simp only [parseMembers, if_pos rfl]
    have hkey := parseStrBody_dumps k
      ((strEsc k ++ ('"' :: (':' :: ' ' ::
        (dumpsV v ++ (dumpsObjTail ms ++ ('\x7d' :: w)))))).length + 1)
      (':' :: ' ' :: (dumpsV v ++ (dumpsObjTail ms ++ ('\x7d' :: w)))) (by
        have := strEsc_length k
        rw [List.length_append]
        simp_arith
        omega)
    simp only [hkey, skipJsonWs_nonws _ (by decide : isJsonWs ':' = false),
      if_pos rfl, skipJsonWs_space]
    obtain ⟨c0, t0, he0, hws0, hbr0, hbc0, hcm0⟩ := dumpsV_head hwv
    have hX : dumpsV v ++ (dumpsObjTail ms ++ ('\x7d' :: w)) =
        c0 :: (t0 ++ (dumpsObjTail ms ++ ('\x7d' :: w))) := by
      rw [he0]; simp
    rw [hX, skipJsonWs_nonws _ hws0, ← hX,
      (ih f2 (by omega)).1 v (dumpsObjTail ms ++ ('\x7d' :: w)) hwv hfuv
        (numSafe_objTail ms w)]
    cases ms with
    | nil =>
      simp only [dumpsObjTail, List.nil_append,
        skipJsonWs_nonws _ (by decide : isJsonWs '\x7d' = false)]
      rw [objUpd_fresh v (nodup_key_fresh hnd)]
      simp
    | cons m2 ms2 =>
      obtain ⟨k2, v2⟩ := m2
      have hwm2 : wfJson v2 = true ∧ wfMembers ms2 = true := by
        simpa [wfMembers, Bool.and_eq_true] using hwm
      have hfum2 := (jfuelMembers_cons_le hfu).2
      have htail : dumpsObjTail ((k2, v2) :: ms2) ++ ('\x7d' :: w) =
          ',' :: ' ' :: ((dumpMember (k2, v2) ++ dumpsObjTail ms2) ++
            ('\x7d' :: w)) := by
        simp [dumpsObjTail]
      rw [htail]
      simp only [skipJsonWs_nonws _ (by decide : isJsonWs ',' = false),
        if_pos rfl, skipJsonWs_space]
      obtain ⟨tm2, hem2⟩ := dumpMember_head (k2, v2)
      have hY : (dumpMember (k2, v2) ++ dumpsObjTail ms2) ++ ('\x7d' :: w) =
          '"' :: (tm2 ++ dumpsObjTail ms2 ++ ('\x7d' :: w)) := by
        rw [hem2]; simp
      rw [hY, skipJsonWs_nonws _ (by decide : isJsonWs '"' = false), ← hY]
      rw [objUpd_fresh v (nodup_key_fresh hnd)]
      rw [(ih f2 (by omega)).2.2 k2 v2 ms2 (acc ++ [(k, v)]) w hwm2.1 hwm2.2
        hfum2 (by rw [List.append_assoc]; simpa using hnd)]
      simp

/-- A well-formed numeric lexeme is non-empty. -/
theorem numLexOk_ne_nil {lex : List Char} (h : numLexOk lex = true) : lex ≠ [] := by
  rcases numLexOk_cases h with h | h | h | h
  · subst h; simp
  · subst h; simp
  · subst h; simp
  · obtain ⟨c, t, he, _⟩ := scanNumber_head h
    subst he; simp

/-- The fuel needed by a value is bounded by the length of its
serialization (joint statement, by strong induction on a size bound). -/
theorem jfuel_bound : ∀ n : Nat,
    (∀ v : Json, sizeOf v ≤ n → wfJson v = true →
      jfuelV v ≤ (dumpsV v).length) ∧
    (∀ (x : Json) (xs : List Json), sizeOf (x :: xs) ≤ n → wfJson x = true →
      wfList xs = true →
      jfuelElems (x :: xs) ≤ (dumpsV x ++ dumpsArrTail xs).length + 1) ∧
    (∀ (k : List Char) (v : Json) (ms : List (List Char × Json)),
      sizeOf ((k, v) :: ms) ≤ n → wfJson v = true → wfMembers ms = true →
      jfuelMembers ((k, v) :: ms) ≤ (dumpMember (k, v) ++ dumpsObjTail ms).length + 1) := by
  intro n
  induction n using Nat.strong_induction_on with
  | _ n ih =>
  refine ⟨?_, ?_, ?_⟩
  · intro v hs hwf
    cases v with
    | null => simp [jfuelV, dumpsV]
    | bool b => cases b <;> simp [jfuelV, dumpsV]
    | num lex =>
      have hne := numLexOk_ne_nil hwf
      cases lex with
      | nil => exact absurd rfl hne
      | cons c t => simp [jfuelV, dumpsV]
    | str s => simp [jfuelV, dumpsV]
    | arr xs =>
      cases xs with
      | nil => simp [jfuelV, dumpsV]
      | cons x t =>
        have hwf2 : wfJson x = true ∧ wfList t = true := by
          have : wfList (x :: t) = true := hwf
          simpa [wfList, Bool.and_eq_true] using this
        have hsz : sizeOf (x :: t) < n := by
          have hlt : sizeOf (x :: t) < sizeOf (Json.arr (x :: t)) := by
            simp_arith
          omega
        have hb := (ih (sizeOf (x :: t)) hsz).2.1 x t le_rfl hwf2.1 hwf2.2
        have he : jfuelV (Json.arr (x :: t)) = 1 + jfuelElems (x :: t) := rfl
        have hd : dumpsV (Json.arr (x :: t)) =
            '[' :: ((dumpsV x ++ dumpsArrTail t) ++ [']']) := rfl
        rw [he, hd]
        simp only [List.length_cons, List.length_append]
        simp only [List.length_append] at hb
        simp_arith
        omega
    | obj ms =>
      cases ms with
      | nil => simp [jfuelV, dumpsV]
      | cons m ms2 =>
        obtain ⟨k, v⟩ := m
        have hwfobj : (decide ((((k, v) :: ms2).map Prod.fst).Nodup) &&
            wfMembers ((k, v) :: ms2)) = true := hwf
        simp only [Bool.and_eq_true, decide_eq_true_eq] at hwfobj
        have hwfm : wfJson v = true ∧ wfMembers ms2 = true := by
          have : wfMembers ((k, v) :: ms2) = true := hwfobj.2
          simpa [wfMembers, Bool.and_eq_true] using this
        have hsz : sizeOf ((k, v) :: ms2) < n := by
          have hlt : sizeOf ((k, v) :: ms2) < sizeOf (Json.obj ((k, v) :: ms2)) := by
            simp_arith
          omega
        have hb := (ih (sizeOf ((k, v) :: ms2)) hsz).2.2 k v ms2 le_rfl
          hwfm.1 hwfm.2
        have he : jfuelV (Json.obj ((k, v) :: ms2)) =
            1 + jfuelMembers ((k, v) :: ms2) := rfl
        have hd : dumpsV (Json.obj ((k, v) :: ms2)) =
            '\x7b' :: ((dumpMember (k, v) ++ dumpsObjTail ms2) ++ ['\x7d']) := rfl
        rw [he, hd]
        simp only [List.length_cons, List.length_append]
        simp only [List.length_append] at hb
        simp_arith
        omega
  · intro x xs hs hwx hwxs
    have hszx : sizeOf x < n := by
      have : sizeOf x < sizeOf (x :: xs) := by simp_arith
      omega
    have ha := (ih (sizeOf x) hszx).1 x le_rfl hwx
    cases xs with
    | nil =>
      have he : jfuelElems [x] = 1 + max (jfuelV x) 0 := rfl
      rw [he]
      simp only [dumpsArrTail, List.append_nil, Nat.max_zero]
      omega
    | cons y ys =>
      have hwy : wfJson y = true ∧ wfList ys = true := by
        simpa [wfList, Bool.and_eq_true] using hwxs
      have hszy : sizeOf (y :: ys) < n := by
        have : sizeOf (y :: ys) < sizeOf (x :: y :: ys) := by simp_arith
        omega
      have hb := (ih (sizeOf (y :: ys)) hszy).2.1 y ys le_rfl hwy.1 hwy.2
      have he : jfuelElems (x :: y :: ys) =
          1 + max (jfuelV x) (jfuelElems (y :: ys)) := rfl
      have hd : dumpsArrTail (y :: ys) =
          ',' :: ' ' :: (dumpsV y ++ dumpsArrTail ys) := rfl
      rw [he, hd]
      simp only [List.length_append, List.length_cons] at hb ⊢
      have hm : max (jfuelV x) (jfuelElems (y :: ys)) ≤
          (dumpsV x).length + ((dumpsV y).length + (dumpsArrTail ys).length) + 2 :=
        Nat.max_le.mpr ⟨by omega, by omega⟩
      omega
  · intro k v ms hs hwv hwm
    have hszv : sizeOf v < n := by
      have h1 : sizeOf v < sizeOf (k, v) := by simp_arith
      have h2 : sizeOf (k, v) < sizeOf ((k, v) :: ms) := by simp_arith
      omega
    have ha := (ih (sizeOf v) hszv).1 v le_rfl hwv
    have hdm : (dumpMember (k, v)).length =
        (dumpKey k).length + (dumpsV v).length + 2 := by
      simp [dumpMember]
      omega
    cases ms with
    | nil =>
      have he : jfuelMembers [(k, v)] = 1 + max (jfuelV v) 0 := rfl
      rw [he]
      simp only [dumpsObjTail, List.append_nil, Nat.max_zero]
      omega
    | cons m2 ms2 =>
      obtain ⟨k2, v2⟩ := m2
      have hwm2 : wfJson v2 = true ∧ wfMembers ms2 = true := by
        simpa [wfMembers, Bool.and_eq_true] using hwm
      have hszm : sizeOf ((k2, v2) :: ms2) < n := by
        have : sizeOf ((k2, v2) :: ms2) < sizeOf ((k, v) :: (k2, v2) :: ms2) := by
          simp_arith
        omega
      have hb := (ih (sizeOf ((k2, v2) :: ms2)) hszm).2.2 k2 v2 ms2 le_rfl
        hwm2.1 hwm2.2
      have he : jfuelMembers ((k, v) :: (k2, v2) :: ms2) =
          1 + max (jfuelV v) (jfuelMembers ((k2, v2) :: ms2)) := rfl
      have hd : dumpsObjTail ((k2, v2) :: ms2) =
          ',' :: ' ' :: (dumpMember (k2, v2) ++ dumpsObjTail ms2) := rfl
      rw [he, hd]
      simp only [List.length_append, List.length_cons] at hb ⊢
      have hm : max (jfuelV v) (jfuelMembers ((k2, v2) :: ms2)) ≤
          (dumpMember (k, v)).length +
            ((dumpMember (k2, v2)).length + (dumpsObjTail ms2).length) + 2 := by
        refine Nat.max_le.mpr ⟨by omega, by omega⟩
      omega

/-- Round trip: the `json.loads` model inverts the `json.dumps` model on
well-formed values. -/
theorem jsonLoads_dumps {v : Json} (hwf : wfJson v = true) :
    jsonLoads (dumpsV v) = some v := by
  obtain ⟨c0, t0, he0, hws0, hx1, hx2, hx3⟩ := dumpsV_head hwf
  have hskip : skipJsonWs (dumpsV v) = dumpsV v := by
    rw [he0, skipJsonWs_nonws _ hws0]
  have hfb : jfuelV v ≤ (dumpsV v).length :=
    (jfuel_bound (sizeOf v)).1 v le_rfl hwf
  have h := (parse_dumps_all ((dumpsV v).length + 1)).1 v [] hwf (by omega) rfl
  rw [List.append_nil] at h
  simp only [jsonLoads, hskip, h]
  rfl

/-! The structured extractor: `safe_parse_json` of `src/utils/llm_parser.py`. -/

/-- The two container shapes the code's `expected_type` takes in the
pipeline (`list` and `dict`); other Python types are outside the claims. -/
inductive PyShape where
  | list
  | dict
deriving DecidableEq

/-- The empty instance of an expected shape (`expected_type()`). -/
def emptyOf : PyShape → Json
  | .list => .arr []
  | .dict => .obj []

/-- Input to `safe_parse_json`: the annotated `str`, or the list of
response parts the code also accepts (`isinstance(text, list)`). -/
inductive PyText where
  | s (text : List Char)
  | parts (items : List Json)

/-- Python truthiness of the input (`if not text`). -/
def pyFalsy : PyText → Bool
  | .s t => t.isEmpty
  | .parts l => l.isEmpty

mutual

/-- Python `str()` of a parsed JSON value, as the parts-joining branch
uses it (`"".join([str(item) for item in text])`). Faithful for numbers
(the literal), booleans (`True`/`False`) and `None`; strings and
containers render in repr style with single quotes, without repr's
escaping and quote-selection rules (no theorem evaluates those cases). -/
def pyStr : Json → List Char
  | .null => ['N', 'o', 'n', 'e']
  | .bool true => ['T', 'r', 'u', 'e']
  | .bool false => ['F', 'a', 'l', 's', 'e']
  | .num lex => lex
  | .str s => '\'' :: (s ++ ['\''])
  | .arr [] => ['[', ']']
  | .arr (x :: xs) => '[' :: ((pyStr x ++ pyStrArrTail xs) ++ [']'])
  | .obj [] => ['\x7b', '\x7d']
  | .obj (m :: ms) => '\x7b' :: ((pyStrMember m ++ pyStrObjTail ms) ++ ['\x7d'])

/-- Repr-style rendering of one dict member. -/
def pyStrMember : List Char × Json → List Char
  | (k, v) => '\'' :: (k ++ ['\'']) ++ (':' :: ' ' :: pyStr v)

/-- Repr-style rendering of the remaining list items. -/
def pyStrArrTail : List Json → List Char
  | [] => []
  | x :: xs => ',' :: ' ' :: (pyStr x ++ pyStrArrTail xs)

/-- Repr-style rendering of the remaining dict members. -/
def pyStrObjTail : List (List Char × Json) → List Char
  | [] => []
  | m :: ms => ',' :: ' ' :: (pyStrMember m ++ pyStrObjTail ms)

end

/-- A backtick. -/
def btick : Char := Char.ofNat 96

/-- The three-backtick fence marker. -/
def fenceChars : List Char := [btick, btick, btick]

/-- The tagged fence opener (three backticks followed by `json`). -/
def fenceJsonChars : List Char := fenceChars ++ ['j', 's', 'o', 'n']

/-- Model of `re.search(tag + r'\s*(.*?)\s*```', text, re.DOTALL)` as used
for both fence patterns: the leftmost match spans from the first
occurrence of the opening tag to the first three-backtick fence after it,
and the `\s*` anchors trim the group, which the code then strips again
(a no-op). Matches only the ASCII white-space class. -/
def fencedExtract (tag : List Char) (text : List Char) : Option (List Char) :=
  match subIdx tag text with
  | none => none
  | some i =>
    let after := (text.drop (i + tag.length))
    match subIdx fenceChars after with
    | none => none
    | some j => some (pyStrip (after.take j))

/-- The bracket-slice fallback of the extractor: the first opening
bracket of the expected shape up to the last closing bracket after it,
to the end of the text when no closing bracket follows (truncation), and
the whole text when no opening bracket occurs at all; stripped. -/
def bracketSlice (text : List Char) (ty : PyShape) : List Char :=
  let openC : Char := match ty with | .list => '[' | .dict => '\x7b'
  let closeC : Char := match ty with | .list => ']' | .dict => '\x7d'
  match pyFindChar openC text with
  | none => pyStrip text
  | some start =>
    match pyRfindChar closeC text with
    | none => pyStrip (text.drop start)
    | some e =>
      if start < e then pyStrip ((text.drop start).take (e + 1 - start))
      else pyStrip (text.drop start)

/-- Candidate selection of `safe_parse_json`: the `json`-tagged fence
first, then any fence, then the bracket slice. -/
def extractCandidate (text : List Char) (ty : PyShape) : List Char :=
  match fencedExtract fenceJsonChars text with
  | some c => c
  | none =>
    match fencedExtract fenceChars text with
    | some c => c
    | none => bracketSlice text ty

/-- The one-shot truncation repair of `safe_parse_json`: only attempted
when the candidate does not already end with the container's closing
bracket; strips trailing white-space then trailing commas, appends one
closing brace per surplus opening brace (braces counted anywhere, string
literals included, as `str.count` does), appends the closing bracket for
the list shape, and retries the strict parse once. -/
def repairParse (c : List Char) (ty : PyShape) : Option Json :=
  match ty with
  | .list =>
    if pyEndsWithChar ']' c then none
    else
      let t := pyRstripComma (pyRstrip c)
      let t2 := t ++ List.replicate (pyCountChar '\x7b' t - pyCountChar '\x7d' t) '\x7d'
      jsonLoads (t2 ++ [']'])
  | .dict =>
    if pyEndsWithChar '\x7d' c then none
    else
      let t := pyRstripComma (pyRstrip c)
      jsonLoads (t ++ List.replicate (pyCountChar '\x7b' t - pyCountChar '\x7d' t) '\x7d')

/-- `safe_parse_json` of `src/utils/llm_parser.py`, logging dropped.
Python cannot raise on any path here: `json.loads` errors are caught,
the bare `except` swallows the repair's, and every other operation used
is non-raising on `str` input — the totality of this function mirrors
that. -/
def safe_parse_json (t : PyText) (ty : PyShape) : Json :=
  if pyFalsy t then emptyOf ty
  else
    let text := match t with
      | .s x => x
      | .parts l => (l.map pyStr).flatten
    let c := extractCandidate text ty
    if c.isEmpty then emptyOf ty
    else
      match jsonLoads c with
      | some v => v
      | none =>
        match repairParse c ty with
        | some v => v
        | none => emptyOf ty

/-- Whether a value's top-level shape agrees with the expected container. -/
def shapeMatches : PyShape → Json → Bool
  | .list, .arr _ => true
  | .dict, .obj _ => true
  | _, _ => false

/-- A found occurrence is an initial segment of the remaining text. -/
theorem subIdx_isInit {sub text : List Char} {i : Nat}
    (h : subIdx sub text = some i) : listIsInit sub (text.drop i) = true := by
  induction text generalizing i with
  | nil =>
    unfold subIdx at h
    split at h
    · cases h
      rename_i he
      simp only [List.isEmpty_iff] at he
      subst he
      rfl
    · exact absurd h (by simp)
  | cons c rest ih =>
    unfold subIdx at h
    split at h
    · cases h
      assumption
    · cases hsub : subIdx sub rest with
      | none => rw [hsub] at h; simp at h
      | some j =>
        rw [hsub] at h
        simp at h
        subst h
        simpa using ih hsub

/-- An initial-segment occurrence anywhere yields a found occurrence. -/
theorem subIdx_of_isInit {sub text : List Char} {i : Nat}
    (h : listIsInit sub (text.drop i) = true) : (subIdx sub text).isSome := by
  induction text generalizing i with
  | nil =>
    rw [List.drop_nil] at h
    cases sub with
    | nil => simp [subIdx]
    | cons a b => simp [listIsInit] at h
  | cons c rest ih =>
    cases i with
    | zero =>
      rw [List.drop_zero] at h
      unfold subIdx
      rw [if_pos h]
      simp
    | succ i2 =>
      rw [List.drop_succ_cons] at h
      unfold subIdx
      split
      · simp
      · have := ih h
        simpa using this

/-- Shortening the needle preserves an initial-segment match. -/
theorem listIsInit_of_append {a b l : List Char}
    (h : listIsInit (a ++ b) l = true) : listIsInit a l = true := by
  induction a generalizing l with
  | nil => rfl
  | cons c a2 ih =>
    cases l with
    | nil => simp [listIsInit] at h
    | cons d l2 =>
      simp only [List.cons_append, listIsInit, Bool.and_eq_true] at h ⊢
      exact ⟨h.1, ih h.2⟩

/-- With no fence marker present, no extended fence tag occurs either. -/
theorem subIdx_fence_ext {text r : List Char}
    (h : hasSub fenceChars text = false) :
    subIdx (fenceChars ++ r) text = none := by
  cases hs : subIdx (fenceChars ++ r) text with
  | none => rfl
  | some i =>
    have h1 := subIdx_isInit hs
    have h2 := listIsInit_of_append h1
    have h3 := subIdx_of_isInit h2
    unfold hasSub at h
    rw [h] at h3
    cases h3

/-- The head of the text is found at index zero. -/
theorem pyFindChar_head (c : Char) (t : List Char) :
    pyFindChar c (c :: t) = some 0 := by
  simp [pyFindChar, List.findIdx?]

/-- The last occurrence of the final character is the final index. -/
theorem pyRfindChar_last (c : Char) (init : List Char) :
    pyRfindChar c (init ++ [c]) = some init.length := by
  unfold pyRfindChar
  rw [List.reverse_append]
  simp [List.findIdx?]

/-- `lstrip` is the identity on a non-white-space head. -/
theorem pyLstrip_nonws {c : Char} (l : List Char) (hc : isPyWs c = false) :
    pyLstrip (c :: l) = c :: l := by
  simp [pyLstrip, List.dropWhile, hc]

/-- `rstrip` is the identity on a non-white-space last character. -/
theorem pyRstrip_nonws {d : Char} (l : List Char) (hd : isPyWs d = false) :
    pyRstrip (l ++ [d]) = l ++ [d] := by
  unfold pyRstrip dropTrailing
  rw [List.reverse_append]
  simp [List.dropWhile, hd]

/-- `strip` is the identity when both ends are non-white-space. -/
theorem pyStrip_id {c d : Char} (init : List Char) (hc : isPyWs c = false)
    (hd : isPyWs d = false) :
    pyStrip (c :: (init ++ [d])) = c :: (init ++ [d]) := by
  unfold pyStrip
  rw [pyLstrip_nonws _ hc, show c :: (init ++ [d]) = (c :: init) ++ [d] from rfl,
    pyRstrip_nonws _ hd]

/-- Serialized arrays are bracket-delimited. -/
theorem dumpsV_arr_snoc (xs : List Json) :
    ∃ init, dumpsV (Json.arr xs) = '[' :: (init ++ [']']) := by
  cases xs with
  | nil => exact ⟨[], rfl⟩
  | cons x t => exact ⟨dumpsV x ++ dumpsArrTail t, rfl⟩

/-- Serialized objects are brace-delimited. -/
theorem dumpsV_obj_snoc (ms : List (List Char × Json)) :
    ∃ init, dumpsV (Json.obj ms) = '\x7b' :: (init ++ ['\x7d']) := by
  cases ms with
  | nil => exact ⟨[], rfl⟩
  | cons m t => exact ⟨dumpMember m ++ dumpsObjTail t, rfl⟩

/-- The bracket slice keeps a whole bracket-delimited text. -/
theorem bracketSlice_delim {openC closeC : Char} {init : List Char}
    (ty : PyShape)
    (hty : (match ty with | .list => ('[', ']') | .dict => ('\x7b', '\x7d')) =
      (openC, closeC))
    (hoc : isPyWs openC = false) (hcc : isPyWs closeC = false) :
    bracketSlice (openC :: (init ++ [closeC])) ty =
      openC :: (init ++ [closeC]) := by
  cases ty with
  | list =>
    simp only [Prod.mk.injEq] at hty
    obtain ⟨rfl, rfl⟩ := hty
    unfold bracketSlice
    dsimp only
    rw [pyFindChar_head]
    rw [show '[' :: (init ++ [']']) = ('[' :: init) ++ [']'] from rfl,
      pyRfindChar_last]
    simp only [List.length_cons]
    rw [if_pos (by omega)]
    rw [List.drop_zero]
    have hlen : ((('[' :: init) ++ [']']).take (init.length + 1 + 1 - 0)) =
        ('[' :: init) ++ [']'] := by
      apply List.take_of_length_le
      simp
    rw [hlen]
    exact pyStrip_id init hoc hcc
  | dict =>
    simp only [Prod.mk.injEq] at hty
    obtain ⟨rfl, rfl⟩ := hty
    unfold bracketSlice
    dsimp only
    rw [pyFindChar_head]
    rw [show '\x7b' :: (init ++ ['\x7d']) = ('\x7b' :: init) ++ ['\x7d'] from rfl,
      pyRfindChar_last]
    simp only [List.length_cons]
    rw [if_pos (by omega)]
    rw [List.drop_zero]
    have hlen : ((('\x7b' :: init) ++ ['\x7d']).take (init.length + 1 + 1 - 0)) =
        ('\x7b' :: init) ++ ['\x7d'] := by
      apply List.take_of_length_le
      simp
    rw [hlen]
    exact pyStrip_id init hoc hcc

/-- Feeding the canonical serialization of a well-formed value of the
expected shape back to the extractor returns the value, as long as the
serialization contains no fence marker. -/
theorem extractor_on_dumps (v : Json) (ty : PyShape) (hwf : wfJson v = true)
    (hsh : shapeMatches ty v = true)
    (hfence : hasSub fenceChars (dumpsV v) = false) :
    safe_parse_json (.s (dumpsV v)) ty = v := by
  have hf1 : fencedExtract fenceJsonChars (dumpsV v) = none := by
    unfold fencedExtract fenceJsonChars
    rw [subIdx_fence_ext hfence]
  have hf2 : fencedExtract fenceChars (dumpsV v) = none := by
    unfold fencedExtract
    have : subIdx fenceChars (dumpsV v) = none := by
      unfold hasSub at hfence
      cases hx : subIdx fenceChars (dumpsV v) with
      | none => rfl
      | some i => rw [hx] at hfence; simp at hfence
    rw [this]
  have hslice : bracketSlice (dumpsV v) ty = dumpsV v := by
    cases ty with
    | list =>
      cases v with
      | arr xs =>
        obtain ⟨init, he⟩ := dumpsV_arr_snoc xs
        rw [he]
        exact bracketSlice_delim .list rfl (by decide) (by decide)
      | null => simp [shapeMatches] at hsh
      | bool b => simp [shapeMatches] at hsh
      | num lex => simp [shapeMatches] at hsh
      | str s => simp [shapeMatches] at hsh
      | obj ms => simp [shapeMatches] at hsh
    | dict =>
      cases v with
      | obj ms =>
        obtain ⟨init, he⟩ := dumpsV_obj_snoc ms
        rw [he]
        exact bracketSlice_delim .dict rfl (by decide) (by decide)
      | null => simp [shapeMatches] at hsh
      | bool b => simp [shapeMatches] at hsh
      | num lex => simp [shapeMatches] at hsh
      | str s => simp [shapeMatches] at hsh
      | arr xs => simp [shapeMatches] at hsh
  have hcand : extractCandidate (dumpsV v) ty = dumpsV v := by
    unfold extractCandidate
    rw [hf1, hf2, hslice]
  obtain ⟨c0, t0, he0, _, _, _, _⟩ := dumpsV_head hwf
  have hne : (dumpsV v).isEmpty = false := by
    rw [he0]; rfl
  unfold safe_parse_json
  rw [if_neg (by simp [pyFalsy, hne])]
  simp only [hcand, hne, Bool.false_eq_true, if_false, jsonLoads_dumps hwf]

/-! Claim theorems for the extractor (C5, C6, C7). -/

/-- The text `safe_parse_json` works on: the string input itself, or the
joined `str()` images of the list input's items. -/
def textOf : PyText → List Char
  | .s x => x
  | .parts l => (l.map pyStr).flatten

/-- C5: `safe_parse_json` returns on every input and expected shape (the
model is a total Lean function, mirroring that no path of the Python
function can raise: `json.loads` errors are caught and the repair is
wrapped in a bare `except`), and whenever the strict parse of the
extracted candidate and the one-shot repair both fail, the result is the
empty instance of the expected shape. -/
theorem c5_total_failure_yields_empty (t : PyText) (ty : PyShape)
    (h1 : jsonLoads (extractCandidate (textOf t) ty) = none)
    (h2 : repairParse (extractCandidate (textOf t) ty) ty = none) :
    safe_parse_json t ty = emptyOf ty := by
  cases t with
  | s x =>
    simp only [textOf] at h1 h2
    unfold safe_parse_json
    by_cases hf : pyFalsy (PyText.s x) = true
    · rw [if_pos hf]
    · rw [if_neg hf]
      dsimp only
      by_cases hc : (extractCandidate x ty).isEmpty = true
      · rw [if_pos hc]
      · rw [if_neg hc, h1, h2]
  | parts l =>
    simp only [textOf] at h1 h2
    unfold safe_parse_json
    by_cases hf : pyFalsy (PyText.parts l) = true
    · rw [if_pos hf]
    · rw [if_neg hf]
      dsimp only
      by_cases hc : (extractCandidate ((l.map pyStr).flatten) ty).isEmpty = true
      · rw [if_pos hc]
      · rw [if_neg hc, h1, h2]

/-- C5 witness: the input `hello` with the list shape fails both the
strict parse and the repair, and returns the empty list. -/
theorem c5_witness :
    (jsonLoads (extractCandidate (textOf (.s ("hello".toList))) PyShape.list) =
        none ∧
      repairParse (extractCandidate (textOf (.s ("hello".toList))) PyShape.list)
        PyShape.list = none) ∧
    safe_parse_json (.s ("hello".toList)) PyShape.list = emptyOf PyShape.list :=
  ⟨⟨by decide, by decide⟩,
    c5_total_failure_yields_empty (.s ("hello".toList)) PyShape.list
      (by decide) (by decide)⟩

/-- C6 counterexample: the extractor is not idempotent on its own
successful output. On the valid input `[1,2]` with the list shape it
succeeds with the two-element list; feeding that output back (the
`isinstance(text, list)` branch joins the `str()` images of the items to
the text `12`) yields the number `12`, a different value. -/
theorem c6_counterexample :
    safe_parse_json (.s ("[1,2]".toList)) PyShape.list =
      Json.arr [Json.num ['1'], Json.num ['2']] ∧
    safe_parse_json (.parts [Json.num ['1'], Json.num ['2']]) PyShape.list =
      Json.num ['1', '2'] ∧
    Json.num ['1', '2'] ≠ Json.arr [Json.num ['1'], Json.num ['2']] :=
  ⟨by decide, by decide, by decide⟩

/-- C6 (amended): the extractor is idempotent through serialization: for
every well-formed value whose top-level shape matches the expected
container and whose `json.dumps` serialization contains no three-backtick
fence marker, re-running the extractor on that serialization returns the
value unchanged. -/
theorem c6_amended_idempotent_on_serialized (v : Json) (ty : PyShape)
    (hwf : wfJson v = true) (hsh : shapeMatches ty v = true)
    (hfence : hasSub fenceChars (dumpsV v) = false) :
    safe_parse_json (.s (dumpsV v)) ty = v :=
  extractor_on_dumps v ty hwf hsh hfence

/-- C6 amended witness: the serialized one-element list round-trips. -/
theorem c6_amended_witness :
    (wfJson (Json.arr [Json.num ['1']]) = true ∧
      shapeMatches PyShape.list (Json.arr [Json.num ['1']]) = true ∧
      hasSub fenceChars (dumpsV (Json.arr [Json.num ['1']])) = false) ∧
    safe_parse_json (.s (dumpsV (Json.arr [Json.num ['1']]))) PyShape.list =
      Json.arr [Json.num ['1']] :=
  ⟨⟨by decide, by decide, by decide⟩,
    c6_amended_idempotent_on_serialized (Json.arr [Json.num ['1']])
      PyShape.list (by decide) (by decide) (by decide)⟩

/-- C7: on the truncated input (an opening bracket, the complete first
record, a comma, then an incomplete second record cut after the digit)
with the list shape, the strict parse of the candidate fails, the repair
(strip trailing white-space and dangling commas, append one closing brace
per surplus opening brace, append the closing bracket, reparse once)
succeeds, and the extractor returns the two-record list — in particular a
list containing the first complete record. -/
theorem c7_truncated_input_repaired :
    jsonLoads (extractCandidate ("[\x7b\"a\":1\x7d,\x7b\"b\":2".toList)
      PyShape.list) = none ∧
    repairParse (extractCandidate ("[\x7b\"a\":1\x7d,\x7b\"b\":2".toList)
        PyShape.list) PyShape.list =
      some (Json.arr [Json.obj [(['a'], Json.num ['1'])],
        Json.obj [(['b'], Json.num ['2'])]]) ∧
    safe_parse_json (.s ("[\x7b\"a\":1\x7d,\x7b\"b\":2".toList)) PyShape.list =
      Json.arr [Json.obj [(['a'], Json.num ['1'])],
        Json.obj [(['b'], Json.num ['2'])]] ∧
    Json.obj [(['a'], Json.num ['1'])] ∈
      [Json.obj [(['a'], Json.num ['1'])], Json.obj [(['b'], Json.num ['2'])]] :=
  ⟨by decide, by decide, by decide, by decide⟩

/-! Finding validation: `_parse_llm_response` of `src/agents/security.py`
and `src/agents/performance.py` (C9). -/

/-- Whether a JSON numeric literal denotes zero: every mantissa digit is
`0` (the constants `NaN` and `Infinity` admitted by `json.loads` are
non-zero floats). -/
def numIsZero (lex : List Char) : Bool :=
  !(numConst lex) &&
    (lex.takeWhile (fun c => !(c == 'e' || c == 'E'))).all
      (fun c => !(isDigit09 c) || c == '0')

/-- Python truthiness of a value `json.loads` can return: `None`,
`False`, zero numbers, the empty string, list and dict are falsy. -/
def pyTruthyJson : Json → Bool
  | .null => false
  | .bool b => b
  | .num lex => !(numIsZero lex)
  | .str s => !s.isEmpty
  | .arr xs => !xs.isEmpty
  | .obj ms => !ms.isEmpty

/-- Association lookup over a parsed object's members (`dict` access;
members parsed by `json.loads` carry distinct keys). -/
def assocFind : List (List Char × Json) → List Char → Option Json
  | [], _ => none
  | (k, v) :: t, key => if k = key then some v else assocFind t key

/-- `finding.get(key, default)`: the stored value when the key is
present, the default otherwise. -/
def jget (ms : List (List Char × Json)) (k : List Char) (d : Json) : Json :=
  (assocFind ms k).getD d

/-- `isinstance(finding, dict)` on a parsed value. -/
def isObjB : Json → Bool
  | .obj _ => true
  | _ => false

/-- The members of a parsed object (`[]` on the other constructors). -/
def membersOf : Json → List (List Char × Json)
  | .obj ms => ms
  | _ => []

/-- The normalized finding `SecurityAgent._parse_llm_response` builds for
one dict element: each field is the stored value when present, otherwise
the documented default — `file` defaults to the analyzed file's path,
`line` to `0`, `severity` and `confidence` to `MEDIUM`, `issue_type` to
`SECURITY_ISSUE`, `description` and `recommendation` to the empty string,
`cwe_id` and `owasp_category` (fetched with no default) to `None`. -/
def securityValidatedFinding (fp : List Char) (ms : List (List Char × Json)) :
    Json :=
  .obj [
    ("file".toList, jget ms ("file".toList) (.str fp)),
    ("line".toList, jget ms ("line".toList) (.num ['0'])),
    ("severity".toList, jget ms ("severity".toList) (.str ("MEDIUM".toList))),
    ("confidence".toList, jget ms ("confidence".toList) (.str ("MEDIUM".toList))),
    ("issue_type".toList,
      jget ms ("issue_type".toList) (.str ("SECURITY_ISSUE".toList))),
    ("description".toList, jget ms ("description".toList) (.str [])),
    ("recommendation".toList, jget ms ("recommendation".toList) (.str [])),
    ("cwe_id".toList, jget ms ("cwe_id".toList) .null),
    ("owasp_category".toList, jget ms ("owasp_category".toList) .null)]

/-- The normalized finding `PerformanceAgent._parse_llm_response` builds
for one dict element: `file` defaults to the analyzed file's path,
`issue_type` to `PERFORMANCE_ISSUE`, `impact` to `MEDIUM`, `description`
and `recommendation` to the empty string, and the fields fetched with no
default (`line`, `complexity_score`, `current_complexity`,
`optimized_complexity`, `estimated_improvement`) to `None`. -/
def performanceValidatedFinding (fp : List Char)
    (ms : List (List Char × Json)) : Json :=
  .obj [
    ("file".toList, jget ms ("file".toList) (.str fp)),
    ("line".toList, jget ms ("line".toList) .null),
    ("issue_type".toList,
      jget ms ("issue_type".toList) (.str ("PERFORMANCE_ISSUE".toList))),
    ("description".toList, jget ms ("description".toList) (.str [])),
    ("complexity_score".toList, jget ms ("complexity_score".toList) .null),
    ("impact".toList, jget ms ("impact".toList) (.str ("MEDIUM".toList))),
    ("current_complexity".toList, jget ms ("current_complexity".toList) .null),
    ("optimized_complexity".toList,
      jget ms ("optimized_complexity".toList) .null),
    ("recommendation".toList, jget ms ("recommendation".toList) (.str [])),
    ("estimated_improvement".toList,
      jget ms ("estimated_improvement".toList) .null)]

/-- Normalization of one parsed element by the security agent. -/
def securityNormalize (fp : List Char) (o : Json) : Json :=
  securityValidatedFinding fp (membersOf o)

/-- Normalization of one parsed element by the performance agent. -/
def performanceNormalize (fp : List Char) (o : Json) : Json :=
  performanceValidatedFinding fp (membersOf o)

/-- `SecurityAgent._parse_llm_response`: parse with the extractor, wrap a
truthy non-list result in a singleton (a falsy one becomes the empty
list), then keep the dict elements normalized with defaults — the
`continue` skips non-dict elements. -/
def security_parse_llm_response (response : PyText) (fp : List Char) :
    List Json :=
  let findings := safe_parse_json response .list
  let l := match findings with
    | .arr xs => xs
    | v => if pyTruthyJson v then [v] else []
  (l.filter isObjB).map (securityNormalize fp)

/-- `PerformanceAgent._parse_llm_response`: same structure as the
security agent's, with the performance field set and defaults. -/
def performance_parse_llm_response (response : PyText) (fp : List Char) :
    List Json :=
  let findings := safe_parse_json response .list
  let l := match findings with
    | .arr xs => xs
    | v => if pyTruthyJson v then [v] else []
  (l.filter isObjB).map (performanceNormalize fp)

/-- C9 counterexample: a non-dict element of the parsed list is dropped
silently. The response `["oops"]` parses to a one-element list, yet both
agents' validation returns the empty list — no corresponding finding
record is produced for the element. -/
theorem c9_counterexample :
    safe_parse_json (.s ("[\"oops\"]".toList)) PyShape.list =
      Json.arr [Json.str ("oops".toList)] ∧
    security_parse_llm_response (.s ("[\"oops\"]".toList)) ("f.py".toList) =
      [] ∧
    performance_parse_llm_response (.s ("[\"oops\"]".toList)) ("f.py".toList) =
      [] :=
  ⟨by decide, by decide, by decide⟩

/-- C9 (amended): every element of the parsed list that is a record
yields a corresponding normalized finding, in order, with the documented
defaults filled in for missing fields (`file` to the analyzed path,
`severity`/`impact` to `MEDIUM`); only non-record elements are dropped,
and they are dropped without a warning. -/
theorem c9_amended_dict_elements_normalized (response : PyText)
    (fp : List Char) (l : List Json) (o : Json)
    (ms : List (List Char × Json))
    (hparse : safe_parse_json response PyShape.list = Json.arr l)
    (ho : o ∈ l) (hobj : isObjB o = true)
    (hfile : assocFind ms ("file".toList) = none)
    (hsev : assocFind ms ("severity".toList) = none)
    (himp : assocFind ms ("impact".toList) = none) :
    security_parse_llm_response response fp =
      (l.filter isObjB).map (securityNormalize fp) ∧
    performance_parse_llm_response response fp =
      (l.filter isObjB).map (performanceNormalize fp) ∧
    securityNormalize fp o ∈ security_parse_llm_response response fp ∧
    performanceNormalize fp o ∈ performance_parse_llm_response response fp ∧
    assocFind (membersOf (securityValidatedFinding fp ms)) ("file".toList) =
      some (Json.str fp) ∧
    assocFind (membersOf (securityValidatedFinding fp ms))
      ("severity".toList) = some (Json.str ("MEDIUM".toList)) ∧
    assocFind (membersOf (performanceValidatedFinding fp ms))
      ("impact".toList) = some (Json.str ("MEDIUM".toList)) := by
  have h1 : security_parse_llm_response response fp =
      (l.filter isObjB).map (securityNormalize fp) := by
    unfold security_parse_llm_response
    rw [hparse]
  have h2 : performance_parse_llm_response response fp =
      (l.filter isObjB).map (performanceNormalize fp) := by
    unfold performance_parse_llm_response
    rw [hparse]
  refine ⟨h1, h2, ?_, ?_, ?_, ?_, ?_⟩
  · rw [h1]
    exact List.mem_map_of_mem _ (List.mem_filter.mpr ⟨ho, hobj⟩)
  · rw [h2]
    exact List.mem_map_of_mem _ (List.mem_filter.mpr ⟨ho, hobj⟩)
  · have h3 : assocFind ms ['f', 'i', 'l', 'e'] = none := hfile
    simp [securityValidatedFinding, membersOf, assocFind, jget, h3]
  · have h3 : assocFind ms ['s', 'e', 'v', 'e', 'r', 'i', 't', 'y'] = none :=
      hsev
    simp [securityValidatedFinding, membersOf, assocFind, jget, h3]
  · have h3 : assocFind ms ['i', 'm', 'p', 'a', 'c', 't'] = none := himp
    simp [performanceValidatedFinding, membersOf, assocFind, jget, h3]

/-- C9 amended witness: the response `[` + an empty record + `]` yields
one finding, all fields at their documented defaults. -/
theorem c9_amended_witness :
    (safe_parse_json (.s ("[\x7b\x7d]".toList)) PyShape.list =
        Json.arr [Json.obj []] ∧
      Json.obj [] ∈ [Json.obj []] ∧ isObjB (Json.obj []) = true ∧
      assocFind [] ("file".toList) = none ∧
      assocFind [] ("severity".toList) = none ∧
      assocFind [] ("impact".toList) = none) ∧
    (security_parse_llm_response (.s ("[\x7b\x7d]".toList)) ("f.py".toList) =
        (([Json.obj []].filter isObjB).map (securityNormalize ("f.py".toList))) ∧
      performance_parse_llm_response (.s ("[\x7b\x7d]".toList))
          ("f.py".toList) =
        (([Json.obj []].filter isObjB).map
          (performanceNormalize ("f.py".toList))) ∧
      securityNormalize ("f.py".toList) (Json.obj []) ∈
        security_parse_llm_response (.s ("[\x7b\x7d]".toList))
          ("f.py".toList) ∧
      performanceNormalize ("f.py".toList) (Json.obj []) ∈
        performance_parse_llm_response (.s ("[\x7b\x7d]".toList))
          ("f.py".toList) ∧
      assocFind (membersOf (securityValidatedFinding ("f.py".toList) []))
        ("file".toList) = some (Json.str ("f.py".toList)) ∧
      assocFind (membersOf (securityValidatedFinding ("f.py".toList) []))
        ("severity".toList) = some (Json.str ("MEDIUM".toList)) ∧
      assocFind (membersOf (performanceValidatedFinding ("f.py".toList) []))
        ("impact".toList) = some (Json.str ("MEDIUM".toList))) :=
  ⟨⟨by decide, by decide, by decide, rfl, rfl, rfl⟩,
    c9_amended_dict_elements_normalized (.s ("[\x7b\x7d]".toList))
      ("f.py".toList) [Json.obj []] (Json.obj []) [] (by decide) (by decide)
      (by decide) rfl rfl rfl⟩

/-! Git operations: `is_git_url` and `cleanup_repository` of
`src/utils/git_ops.py` (C8, C10), and the source dispatch of
`IngestorAgent.ingest` (C10). -/

/-- Lower-casing of a text, the effect of `re.IGNORECASE` on the ASCII
patterns `is_git_url` uses. -/
def lowerList (l : List Char) : List Char := l.map Char.toLower

/-- `endswith` as a list predicate. -/
def listEndsWith (suf l : List Char) : Bool :=
  listIsInit suf.reverse l.reverse

/-- A case-insensitive `^`-anchored pattern is a case-insensitive test of
the start of the string. -/
def hasPrefixCI (pat p : List Char) : Bool :=
  listIsInit (lowerList pat) (lowerList p)

/-- `re.search(r'\.git$', path, re.IGNORECASE)`: a case-insensitive
`.git` suffix, where Python `$` also matches just before one trailing
newline. -/
def endsGitCI (p : List Char) : Bool :=
  listEndsWith (".git".toList) (lowerList p) ||
  listEndsWith (".git".toList ++ ['\n']) (lowerList p)

/-- A character `urlparse` accepts inside a scheme after the leading
letter. -/
def isSchemeChar (c : Char) : Bool :=
  c.isAlphanum || c == '+' || c == '-' || c == '.'

/-- The scheme-and-network-location test of `urlparse` as `is_git_url`
uses it (`all([result.scheme, result.netloc])`): a scheme is a leading
letter followed by letters, digits, `+`, `-` or `.` up to a `:`; the
netloc is what follows an immediate `//`, up to the next `/`, `?` or
`#`, and the `all` test needs both non-empty. `urlparse` cannot raise on
`str` input, so the caller's `except` branch is dead. -/
def hasSchemeNetloc (s : List Char) : Bool :=
  match s with
  | [] => false
  | c :: rest =>
    if c.isAlpha then
      match rest.drop ((rest.takeWhile isSchemeChar).length) with
      | ':' :: '/' :: '/' :: netRest =>
        !((netRest.takeWhile
            (fun x => !(x == '/' || x == '?' || x == '#'))).isEmpty)
      | _ => false
    else false

/-- `is_git_url` of `src/utils/git_ops.py`: the anchored host patterns
(each `https?` alternative spelled out), the `.git` suffix pattern, then
the `urlparse` fallback — the loop over the pattern list returns true as
soon as one matches, which is the disjunction. -/
def is_git_url (path : List Char) : Bool :=
  hasPrefixCI ("https://github.com/".toList) path ||
  hasPrefixCI ("http://github.com/".toList) path ||
  hasPrefixCI ("https://gitlab.com/".toList) path ||
  hasPrefixCI ("http://gitlab.com/".toList) path ||
  hasPrefixCI ("https://bitbucket.org/".toList) path ||
  hasPrefixCI ("http://bitbucket.org/".toList) path ||
  hasPrefixCI ("git@github.com:".toList) path ||
  hasPrefixCI ("git@gitlab.com:".toList) path ||
  hasPrefixCI ("git@bitbucket.org:".toList) path ||
  endsGitCI path ||
  hasSchemeNetloc path

/-- The two ingestion paths of `IngestorAgent.ingest`. -/
inductive IngestRoute where
  | remote
  | localDir
deriving DecidableEq

set_option linter.unusedVariables false in
/-- The source dispatch of `IngestorAgent.ingest`: a git-URL input takes
`_ingest_git_repository`, anything else `_ingest_local_directory`. The
dispatch never consults the file system — the `fs` argument (the list of
existing paths) is ignored by construction, mirroring that the Python
branch tests only `is_git_url(input_path)`. -/
def ingestRoute (fs : List (List Char)) (input_path : List Char) :
    IngestRoute :=
  if is_git_url input_path then .remote else .localDir

/-- The events `cleanup_repository` can log at warning or error level. -/
inductive CleanupEvent where
  | warnMissing
  | warnNonTemp
  | errorFailed
deriving DecidableEq

/-- Result of a `cleanup_repository` call over the file-system model:
the surviving paths and the warning- and error-level events logged. -/
structure CleanupResult where
  fs : List (List Char)
  warnings : List CleanupEvent
  errors : List CleanupEvent
deriving DecidableEq

/-- `shutil.rmtree(path, ignore_errors=True)` over the file-system model
(the list of existing paths): removes the path and everything below it;
with `ignore_errors=True` it never raises. -/
def rmtree (fs : List (List Char)) (p : List Char) : List (List Char) :=
  fs.filter (fun q => !(q == p || listIsInit (p ++ ['/']) q))

/-- `repo_path.exists()` over the file-system model. -/
def fsHas (fs : List (List Char)) (p : List Char) : Bool :=
  fs.any (fun q => q == p)

/-- `cleanup_repository` of `src/utils/git_ops.py`, with
`tempfile.gettempdir()` as the `tmpRoot` parameter: warn and return when
the path does not exist; warn and return when the path is outside the
temporary root (`str(repo_path).startswith(...)`) and `force` is unset;
otherwise `rmtree` with errors ignored. The `except` branch
(`errorFailed`) is unreachable: `rmtree` is called with
`ignore_errors=True` and the two `logger.info` calls cannot raise. -/
def cleanup_repository (tmpRoot : List Char) (fs : List (List Char))
    (repo_path : List Char) (force : Bool) : CleanupResult :=
  if !(fsHas fs repo_path) then
    ⟨fs, [.warnMissing], []⟩
  else if !(listIsInit tmpRoot repo_path) && !force then
    ⟨fs, [.warnNonTemp], []⟩
  else
    ⟨rmtree fs repo_path, [], []⟩

/-- A deleted path no longer exists. -/
theorem fsHas_rmtree_self (fs : List (List Char)) (p : List Char) :
    fsHas (rmtree fs p) p = false := by
  induction fs with
  | nil => rfl
  | cons q t ih =>
    unfold rmtree at ih ⊢
    unfold fsHas at ih ⊢
    simp only [List.filter]
    cases hq : (!(q == p || listIsInit (p ++ ['/']) q)) with
    | false => exact ih
    | true =>
      have hqp : (q == p) = false := by
        cases hx : q == p
        · rfl
        · rw [hx] at hq; simp at hq
      simp only [List.any_cons, hqp, Bool.false_or]
      exact ih

/-- C8: `cleanup_repository` never raises (the model is total and its
error-event list is empty on every path); calling it twice on the same
path is safe — the second call deletes nothing and produces no error;
and a path outside the temporary root is left untouched unless `force`
is set. -/
theorem c8_cleanup_idempotent_and_safe (tmpRoot : List Char)
    (fs : List (List Char)) (repo_path : List Char) (force : Bool) :
    (cleanup_repository tmpRoot fs repo_path force).errors = [] ∧
    (cleanup_repository tmpRoot
        (cleanup_repository tmpRoot fs repo_path force).fs repo_path
        force).fs =
      (cleanup_repository tmpRoot fs repo_path force).fs ∧
    (cleanup_repository tmpRoot
        (cleanup_repository tmpRoot fs repo_path force).fs repo_path
        force).errors = [] ∧
    (listIsInit tmpRoot repo_path = false → force = false →
      (cleanup_repository tmpRoot fs repo_path force).fs = fs) := by
  have herr : ∀ fs2, (cleanup_repository tmpRoot fs2 repo_path force).errors
      = [] := by
    intro fs2
    unfold cleanup_repository
    split
    · rfl
    · split
      · rfl
      · rfl
  have hsecond : (cleanup_repository tmpRoot
      (cleanup_repository tmpRoot fs repo_path force).fs repo_path
      force).fs = (cleanup_repository tmpRoot fs repo_path force).fs := by
    by_cases h1 : fsHas fs repo_path = true
    · by_cases h2 : (!(listIsInit tmpRoot repo_path) && !force) = true
      · have hr : cleanup_repository tmpRoot fs repo_path force =
            ⟨fs, [.warnNonTemp], []⟩ := by
          unfold cleanup_repository
          rw [if_neg (by simp [h1]), if_pos h2]
        rw [hr]
        unfold cleanup_repository
        rw [if_neg (by simp [h1]), if_pos h2]
      · have hr : cleanup_repository tmpRoot fs repo_path force =
            ⟨rmtree fs repo_path, [], []⟩ := by
          unfold cleanup_repository
          rw [if_neg (by simp [h1]), if_neg h2]
        rw [hr]
        unfold cleanup_repository
        rw [if_pos (by simp [fsHas_rmtree_self])]
    · have hr : cleanup_repository tmpRoot fs repo_path force =
          ⟨fs, [.warnMissing], []⟩ := by
        unfold cleanup_repository
        rw [if_pos (by simp [Bool.eq_false_iff.mpr h1])]
      rw [hr]
      unfold cleanup_repository
      rw [if_pos (by simp [Bool.eq_false_iff.mpr h1])]
  refine ⟨herr fs, hsecond, herr _, ?_⟩
  intro ht hf
  unfold cleanup_repository
  split
  · rfl
  · rw [if_pos (by simp [ht, hf])]

/-- C8 witness: a concrete run — a path under the temporary root is
deleted on the first call, and the second call deletes nothing with no
error; the conjuncts hold at that instance. -/
theorem c8_witness :
    listIsInit ("/tmp".toList) ("/tmp/x".toList) = true ∧
    (cleanup_repository ("/tmp".toList) [("/tmp/x".toList)] ("/tmp/x".toList)
        false).errors = [] ∧
    (cleanup_repository ("/tmp".toList)
        (cleanup_repository ("/tmp".toList) [("/tmp/x".toList)]
          ("/tmp/x".toList) false).fs ("/tmp/x".toList) false).fs =
      (cleanup_repository ("/tmp".toList) [("/tmp/x".toList)]
        ("/tmp/x".toList) false).fs ∧
    (cleanup_repository ("/tmp".toList)
        (cleanup_repository ("/tmp".toList) [("/tmp/x".toList)]
          ("/tmp/x".toList) false).fs ("/tmp/x".toList) false).errors = [] ∧
    (cleanup_repository ("/nottmp".toList) [("/home/x".toList)]
        ("/home/x".toList) false).fs = [("/home/x".toList)] :=
  ⟨by decide,
    (c8_cleanup_idempotent_and_safe ("/tmp".toList) [("/tmp/x".toList)]
      ("/tmp/x".toList) false).1,
    (c8_cleanup_idempotent_and_safe ("/tmp".toList) [("/tmp/x".toList)]
      ("/tmp/x".toList) false).2.1,
    (c8_cleanup_idempotent_and_safe ("/tmp".toList) [("/tmp/x".toList)]
      ("/tmp/x".toList) false).2.2.1,
    (c8_cleanup_idempotent_and_safe ("/nottmp".toList) [("/home/x".toList)]
      ("/home/x".toList) false).2.2.2 (by decide) rfl⟩

/-- C10: a path with a case-insensitive `.git` suffix, and a path with
both a scheme and a network host, is recognized by `is_git_url`, and the
ingestion dispatch takes the remote-clone path for it — for every file
system, in particular one where the path exists as a local directory;
the local-directory path is taken exactly for the inputs matching no
git-URL pattern. -/
theorem c10_git_url_dispatch (fs : List (List Char)) (p : List Char) :
    (endsGitCI p = true → is_git_url p = true) ∧
    (hasSchemeNetloc p = true → is_git_url p = true) ∧
    (ingestRoute fs p = IngestRoute.remote ↔ is_git_url p = true) ∧
    (ingestRoute fs p = IngestRoute.localDir ↔ is_git_url p = false) := by
  refine ⟨fun h => by simp [is_git_url, h], fun h => by simp [is_git_url, h],
    ?_, ?_⟩
  · cases hg : is_git_url p
    · simp [ingestRoute, hg]
    · simp [ingestRoute, hg]
  · cases hg : is_git_url p
    · simp [ingestRoute, hg]
    · simp [ingestRoute, hg]

/-- C10 witness: a github URL with a `.git` suffix is recognized by both
the suffix pattern and the scheme test, and routes to the remote-clone
path even on a file system where it exists as a directory. -/
theorem c10_witness :
    endsGitCI ("https://github.com/u/r.git".toList) = true ∧
    hasSchemeNetloc ("https://github.com/u/r.git".toList) = true ∧
    is_git_url ("https://github.com/u/r.git".toList) = true ∧
    ingestRoute [("https://github.com/u/r.git".toList)]
      ("https://github.com/u/r.git".toList) = IngestRoute.remote :=
  ⟨by decide, by decide,
    (c10_git_url_dispatch [("https://github.com/u/r.git".toList)]
      ("https://github.com/u/r.git".toList)).1 (by decide),
    (c10_git_url_dispatch [("https://github.com/u/r.git".toList)]
      ("https://github.com/u/r.git".toList)).2.2.1.mpr
      ((c10_git_url_dispatch [("https://github.com/u/r.git".toList)]
        ("https://github.com/u/r.git".toList)).2.1 (by decide))⟩

/-! The workflow executor: state, nodes and wiring (C1, C2, C3, C4).
The node functions and the graph wiring are translated from
`src/agents/*.py` and `src/graph/workflow.py`; the shared state record and
the merge protocol live in `graph/state.py`, which is not under `src/`,
so those two pieces are modelled from the spec. -/

/-- One scanned file, as `scan_local_directory` of
`src/utils/file_scanner.py` builds it (`path`, `relative_path`, `name`,
`extension`, `size_bytes`; the derived float `size_mb` is out of the
model). -/
structure FileEntry where
  path : List Char
  relative_path : List Char
  name : List Char
  extension : List Char
  size_bytes : Nat
deriving DecidableEq

/-- The scan result of `scan_local_directory`: `total_files` is set to
`len(files)` by the source (the float `total_size_mb` and the
`extensions` counts are read only by abridged report sections and are
out of the model). -/
structure FileTree where
  root_path : List Char
  files : List FileEntry
  total_files : Nat
deriving DecidableEq

/-- Modelled from the spec: the shared review record of section 3
(`graph/state.py` is not under `src/`). One optional field per key the
nodes read or write; `none` is an absent key, so `state.get` reads are
`Option.getD`. -/
structure ReviewState where
  input_path : Option (List Char)
  output_dir : Option (List Char)
  source_type : Option (List Char)
  working_directory : Option (List Char)
  is_temp_directory : Option Bool
  file_tree : Option FileTree
  total_files : Option Nat
  security_findings : Option (List Json)
  performance_findings : Option (List Json)
  style_findings : Option (List Json)
  warnings : Option (List (List Char))
  error : Option (List Char)
  final_report : Option (List Char)
  report_path : Option (List Char)
deriving DecidableEq

/-- The all-absent partial update (a node returning a dict with only
some keys). -/
def emptyUpd : ReviewState :=
  ⟨none, none, none, none, none, none, none, none, none, none, none,
    none, none, none⟩

/-- Modelled from the spec: `create_initial_state` of `graph/state.py`.
The run starts with the input locator and output directory set and the
append-only `warnings` channel present and empty; every other key is
written later by its owning stage. -/
def create_initial_state (input_path output_dir : List Char) : ReviewState :=
  ⟨some input_path, some output_dir, none, none, none, none, none, none,
    none, none, some [], none, none, none⟩

/-- Per-key merge of one key: a key present in the update overwrites. -/
def updKey (a b : Option α) : Option α :=
  match b with
  | none => a
  | some x => some x

/-- Merge of the `warnings` key: its reducer appends the update's list
to the stored one. -/
def warnMerge (a b : Option (List (List Char))) :
    Option (List (List Char)) :=
  match b with
  | none => a
  | some w => some (a.getD [] ++ w)

/-- Modelled from the spec: the merge protocol of section 4.1 — a key
present in a stage's partial update overwrites the stored value, except
`warnings`, which uses an append reducer. -/
def applyUpdate (s u : ReviewState) : ReviewState where
  input_path := updKey s.input_path u.input_path
  output_dir := updKey s.output_dir u.output_dir
  source_type := updKey s.source_type u.source_type
  working_directory := updKey s.working_directory u.working_directory
  is_temp_directory := updKey s.is_temp_directory u.is_temp_directory
  file_tree := updKey s.file_tree u.file_tree
  total_files := updKey s.total_files u.total_files
  security_findings := updKey s.security_findings u.security_findings
  performance_findings := updKey s.performance_findings u.performance_findings
  style_findings := updKey s.style_findings u.style_findings
  warnings := warnMerge s.warnings u.warnings
  error := updKey s.error u.error
  final_report := updKey s.final_report u.final_report
  report_path := updKey s.report_path u.report_path

/-- Python truthiness of an optional string field (`if not value`). -/
def pyTruthyStr : Option (List Char) → Bool
  | none => false
  | some s => !s.isEmpty

/-- `file_tree = state.get('file_tree', {})` followed by
`file_tree.get('files', [])`. -/
def filesOfState (s : ReviewState) : List FileEntry :=
  match s.file_tree with
  | some ft => ft.files
  | none => []

/-- What a branch's `agent.analyze_directory` call does: return findings
or raise with a message. The agents' internals (LLM calls, scanners) are
behind this interface. -/
inductive BranchOutcome where
  | ok (findings : List Json)
  | fail (msg : List Char)
deriving DecidableEq

/-- The findings a branch's update carries: the returned list on
success, the empty list when the branch raised. -/
def findingsOf : BranchOutcome → List Json
  | .ok fs => fs
  | .fail _ => []

/-- The `warnings` key of a branch's update: absent on success; on
failure the state's list (read in the node) with the tagged message
appended. -/
def warnAdd (base : List (List Char)) (tag : List Char) :
    BranchOutcome → Option (List (List Char))
  | .ok _ => none
  | .fail m => some (base ++ [tag ++ m])

/-- `security_node` of `src/agents/security.py`: the three early paths
return `\x7b**state, 'security_findings': []\x7d`; success returns the
partial dict with only `security_findings`; a caught exception returns
empty findings plus the state's warnings with the tagged message
appended. -/
def security_node (s : ReviewState) (outcome : BranchOutcome) :
    ReviewState :=
  if pyTruthyStr s.error then { s with security_findings := some [] }
  else if !(pyTruthyStr s.working_directory) then
    { s with security_findings := some [] }
  else if (filesOfState s).isEmpty then
    { s with security_findings := some [] }
  else
    match outcome with
    | .ok fs => { emptyUpd with security_findings := some fs }
    | .fail m =>
      { emptyUpd with
        security_findings := some []
        warnings := some (s.warnings.getD [] ++
          [("Security analysis failed: ".toList) ++ m]) }

/-- `performance_node` of `src/agents/performance.py`: same structure as
the security node, except the early paths return the partial
`\x7b'performance_findings': []\x7d` without spreading the state. -/
def performance_node (s : ReviewState) (outcome : BranchOutcome) :
    ReviewState :=
  if pyTruthyStr s.error then
    { emptyUpd with performance_findings := some [] }
  else if !(pyTruthyStr s.working_directory) then
    { emptyUpd with performance_findings := some [] }
  else if (filesOfState s).isEmpty then
    { emptyUpd with performance_findings := some [] }
  else
    match outcome with
    | .ok fs => { emptyUpd with performance_findings := some fs }
    | .fail m =>
      { emptyUpd with
        performance_findings := some []
        warnings := some (s.warnings.getD [] ++
          [("Performance analysis failed: ".toList) ++ m]) }

/-- `style_node` of `src/agents/style.py`: identical structure to the
performance node with the style key and message. -/
def style_node (s : ReviewState) (outcome : BranchOutcome) : ReviewState :=
  if pyTruthyStr s.error then { emptyUpd with style_findings := some [] }
  else if !(pyTruthyStr s.working_directory) then
    { emptyUpd with style_findings := some [] }
  else if (filesOfState s).isEmpty then
    { emptyUpd with style_findings := some [] }
  else
    match outcome with
    | .ok fs => { emptyUpd with style_findings := some fs }
    | .fail m =>
      { emptyUpd with
        style_findings := some []
        warnings := some (s.warnings.getD [] ++
          [("Style analysis failed: ".toList) ++ m]) }

/-- Result of `clone_repository`: the cloned path and whether it is a
fresh temporary directory, or the `GitCommandError` message. -/
inductive CloneOutcome where
  | ok (path : List Char) (isTemp : Bool)
  | err (msg : List Char)
deriving DecidableEq

/-- Result of `scan_local_directory`: the root and file list (the
returned dict's `total_files` is `len(files)`), or the raised message. -/
inductive ScanOutcome where
  | ok (root : List Char) (files : List FileEntry)
  | err (msg : List Char)
deriving DecidableEq

/-- The external world of one ingestion: what the clone and the scan
return, and `Path(input_path).resolve()` for the local branch. -/
structure IngestEnv where
  clone : CloneOutcome
  scan : ScanOutcome
  resolved : List Char
deriving DecidableEq

/-- The empty dict the ingestor stores as `file_tree` on failure; every
later read goes through `.get` with a default, which the zero values
model. -/
def emptyFileTree : FileTree := ⟨[], [], 0⟩

/-- `ingestor_node` of `src/agents/ingestor.py` (with `ingest`,
`_ingest_git_repository`, `_ingest_local_directory` inlined), returning
the state update and how many times `cleanup_repository` ran on the
cloned working copy. On success `ingestor.temp_directories.clear()`
(line 261) empties the tracking list, so neither the node nor `__del__`
releases anything — 0. When the scan of a temporary clone raises,
`_ingest_git_repository` releases the clone right there — 1, before any
later stage; the node's own `ingestor.cleanup()` calls then iterate an
empty list. A failed clone leaves no working copy (its internal rmtree
of the fresh empty directory is not a release of a working copy). -/
def ingestor_node (env : IngestEnv) (s : ReviewState) :
    ReviewState × Nat :=
  if !(pyTruthyStr s.input_path) then
    ({ s with
       error := some ("No input_path provided in state".toList)
       file_tree := some emptyFileTree
       total_files := some 0 }, 0)
  else if is_git_url (s.input_path.getD []) then
    match env.clone with
    | .err msg =>
      ({ s with
         error := some msg
         file_tree := some emptyFileTree
         total_files := some 0 }, 0)
    | .ok path isTemp =>
      match env.scan with
      | .ok root files =>
        ({ s with
           file_tree := some ⟨root, files, files.length⟩
           total_files := some files.length
           working_directory := some path
           source_type := some ("git".toList)
           is_temp_directory := some isTemp }, 0)
      | .err msg =>
        ({ s with
           error := some msg
           file_tree := some emptyFileTree
           total_files := some 0 }, if isTemp then 1 else 0)
  else
    match env.scan with
    | .ok root files =>
      ({ s with
         file_tree := some ⟨root, files, files.length⟩
         total_files := some files.length
         working_directory := some env.resolved
         source_type := some ("local".toList)
         is_temp_directory := some false }, 0)
    | .err msg =>
      ({ s with
         error := some msg
         file_tree := some emptyFileTree
         total_files := some 0 }, 0)

/-- The routing choice of the conditional edge. -/
inductive GateResult where
  | toContinue
  | toEnd
deriving DecidableEq

/-- `should_continue_to_agents` of `src/graph/workflow.py`. The
zero-files branch assigns `state['error']` on the dict it was handed;
the graph engine assembles a fresh dict from the channels for every node
invocation, so that in-place assignment is not persisted — the
function's observable effect is the routing choice. -/
def should_continue_to_agents (s : ReviewState) : GateResult :=
  if pyTruthyStr s.error then .toEnd
  else if s.total_files.getD 0 = 0 then .toEnd
  else .toContinue

/-- `finding.get(key)` membership in the critical classes, as the
aggregator's `_generate_critical_issues` filters findings. -/
def isCritHigh (key : List Char) (f : Json) : Bool :=
  jget (membersOf f) key .null == Json.str ("CRITICAL".toList) ||
  jget (membersOf f) key .null == Json.str ("HIGH".toList)

/-- `_generate_critical_issues`: the empty string when no finding is
critical or high, a section otherwise (body abridged to its heading). -/
def criticalIssuesSection (sec perf : List Json) : List Char :=
  if (sec.filter (isCritHigh ("severity".toList))).isEmpty &&
      (perf.filter (isCritHigh ("impact".toList))).isEmpty then []
  else ("## Critical Issues Requiring Immediate Attention".toList)

/-- `_generate_warnings_section`: the heading plus one `- ` line per
warning. -/
def warningsSection (ws : List (List Char)) : List Char :=
  ("## Analysis Warnings\n".toList) ++
    (ws.map (fun w => ('-' :: ' ' :: w) ++ ['\n'])).flatten

/-- `"\n\n".join(sections)`. -/
def joinSections : List (List Char) → List Char
  | [] => []
  | [x] => x
  | x :: y :: t => x ++ '\n' :: '\n' :: joinSections (y :: t)

/-- `AggregatorAgent.generate_report`: the section list in source order
with the source's inclusion conditions (a section for each non-empty
findings list, the critical section when non-empty, the warnings section
when warnings exist), joined by blank lines, and the report path
`output_dir/REVIEW_REPORT_<timestamp>.md`. Section bodies are abridged
to their headings and headline statistics; timestamps enter as the `ts`
parameter; the file write is outside the model, so the function is
total and the caller's `except` is unreachable here. -/
def generate_report (ts : List Char) (s : ReviewState)
    (output_dir : List Char) : List Char × List Char :=
  let sec := s.security_findings.getD []
  let perf := s.performance_findings.getD []
  let sty := s.style_findings.getD []
  let ws := s.warnings.getD []
  let crit := criticalIssuesSection sec perf
  let sections :=
    [("# Automated Code Review Report Source: ".toList) ++
      s.input_path.getD ("Unknown".toList) ++ (" Type: ".toList) ++
      s.source_type.getD ("unknown".toList)] ++
    [("## Executive Summary Total Issues: ".toList) ++
      (Nat.repr (sec.length + perf.length + sty.length)).toList ++
      (" Files: ".toList) ++ (Nat.repr (s.total_files.getD 0)).toList] ++
    (if crit.isEmpty then [] else [crit]) ++
    (if sec.isEmpty then [] else [("## Security Analysis".toList)]) ++
    (if perf.isEmpty then [] else [("## Performance Analysis".toList)]) ++
    (if sty.isEmpty then [] else
      [("## Style and Quality Analysis".toList)]) ++
    [("## Recommendations".toList)] ++
    (if ws.isEmpty then [] else [warningsSection ws]) ++
    [("## Additional Resources".toList)]
  (joinSections sections,
    output_dir ++ ("/REVIEW_REPORT_".toList) ++ ts ++ (".md".toList))

/-- `aggregator_node` of `src/agents/aggregator.py`: with an error set
it returns the state unchanged (the full dict as its update); otherwise
it spreads the state and adds the report and its path. It contains no
release of the working copy — the cleanup the ingestor's comment
(lines 258-260) promises for this node does not exist in it. -/
def aggregator_node (ts : List Char) (s : ReviewState) : ReviewState :=
  if pyTruthyStr s.error then s
  else
    { s with
      final_report := some (generate_report ts s
        (s.output_dir.getD ("./code_reviews".toList))).1
      report_path := some (generate_report ts s
        (s.output_dir.getD ("./code_reviews".toList))).2 }

/-- The graph's node names. -/
inductive NodeName where
  | ingestor
  | security
  | performance
  | style
  | aggregator
deriving DecidableEq

/-- Everything outside the graph that one run consumes: the ingestion
environment, the three branches' analysis outcomes, and the timestamp. -/
structure RunEnv where
  ingest : IngestEnv
  sec : BranchOutcome
  perf : BranchOutcome
  sty : BranchOutcome
  ts : List Char
deriving DecidableEq

/-- What one run yields for the claims: the gate's choice, which nodes
executed (in task order), the merged state at the barrier, the final
state, and how many working-copy releases happened before and after the
aggregation stage. -/
structure RunTrace where
  gate : GateResult
  executed : List NodeName
  postBarrier : ReviewState
  finalState : ReviewState
  releasesBeforeAggregation : Nat
  releasesAfterAggregation : Nat
deriving DecidableEq

/-- The barrier superstep: the tasks scheduled after the ingestor.
`create_review_graph` routes the conditional edge to the security node
or to END, and also adds the unconditional edges
`ingestor → performance` and `ingestor → style` (lines 103-104), so
those two run in both cases; every task reads the same post-ingestion
snapshot, and the updates merge in task order. -/
def postBarrierOf (env : RunEnv) (s1 : ReviewState) :
    GateResult → ReviewState
  | .toEnd =>
    applyUpdate (applyUpdate s1 (performance_node s1 env.perf))
      (style_node s1 env.sty)
  | .toContinue =>
    applyUpdate (applyUpdate (applyUpdate s1 (security_node s1 env.sec))
      (performance_node s1 env.perf)) (style_node s1 env.sty)

/-- The nodes that execute, in task order: the aggregator is the target
of unconditional edges from all three branch nodes, so it runs whenever
any of them ran. -/
def executedOf : GateResult → List NodeName
  | .toEnd => [.ingestor, .performance, .style, .aggregator]
  | .toContinue => [.ingestor, .security, .performance, .style, .aggregator]

/-- Modelled from the spec: the executor semantics of sections 2 and 4
(supersteps with a barrier, snapshot reads, per-key merge) driving the
wiring of `create_review_graph`. Superstep 1 runs the ingestor;
superstep 2 the branch tasks of `postBarrierOf`; superstep 3 the
aggregator. No stage after the ingestor calls `cleanup_repository`, so
the post-aggregation release count is 0 by construction. -/
def runReview (env : RunEnv) (s0 : ReviewState) : RunTrace :=
  let s1 := applyUpdate s0 (ingestor_node env.ingest s0).1
  let g := should_continue_to_agents s1
  let s2 := postBarrierOf env s1 g
  ⟨g, executedOf g, s2, applyUpdate s2 (aggregator_node env.ts s2),
    (ingestor_node env.ingest s0).2, 0⟩

/-- The three analysis branches, in declaration order. -/
inductive BranchTag where
  | sec
  | perf
  | sty
deriving DecidableEq

/-- The update each branch produces on the shared snapshot. -/
def branchNodeUpdate (snap : ReviewState) (oS oP oY : BranchOutcome) :
    BranchTag → ReviewState
  | .sec => security_node snap oS
  | .perf => performance_node snap oP
  | .sty => style_node snap oY

/-- The barrier merge with an explicit completion order. -/
def mergeInOrder (snap : ReviewState) (oS oP oY : BranchOutcome)
    (order : List BranchTag) : ReviewState :=
  order.foldl (fun s t => applyUpdate s (branchNodeUpdate snap oS oP oY t))
    snap

/-- The warning messages a branch contributes. -/
def warnMsgsOf (tag : List Char) : BranchOutcome → List (List Char)
  | .ok _ => []
  | .fail m => [tag ++ m]

/-! Merge algebra: how `applyUpdate` acts per key, and how key values
survive a fold of updates. -/

@[simp]
theorem updKey_none (a : Option α) : updKey a none = a := rfl

@[simp]
theorem updKey_some (a : Option α) (x : α) : updKey a (some x) = some x :=
  rfl

@[simp]
theorem warnMerge_none (a : Option (List (List Char))) :
    warnMerge a none = a := rfl

@[simp]
theorem warnMerge_some (a : Option (List (List Char)))
    (w : List (List Char)) : warnMerge a (some w) = some (a.getD [] ++ w) :=
  rfl

@[simp]
theorem applyUpdate_security_findings (s u : ReviewState) :
    (applyUpdate s u).security_findings =
      updKey s.security_findings u.security_findings := rfl

@[simp]
theorem applyUpdate_performance_findings (s u : ReviewState) :
    (applyUpdate s u).performance_findings =
      updKey s.performance_findings u.performance_findings := rfl

@[simp]
theorem applyUpdate_style_findings (s u : ReviewState) :
    (applyUpdate s u).style_findings =
      updKey s.style_findings u.style_findings := rfl

@[simp]
theorem applyUpdate_warnings (s u : ReviewState) :
    (applyUpdate s u).warnings = warnMerge s.warnings u.warnings := rfl

@[simp]
theorem applyUpdate_error (s u : ReviewState) :
    (applyUpdate s u).error = updKey s.error u.error := rfl

@[simp]
theorem applyUpdate_total_files (s u : ReviewState) :
    (applyUpdate s u).total_files = updKey s.total_files u.total_files :=
  rfl

@[simp]
theorem applyUpdate_final_report (s u : ReviewState) :
    (applyUpdate s u).final_report =
      updKey s.final_report u.final_report := rfl

@[simp]
theorem applyUpdate_report_path (s u : ReviewState) :
    (applyUpdate s u).report_path = updKey s.report_path u.report_path :=
  rfl

@[simp]
theorem applyUpdate_working_directory (s u : ReviewState) :
    (applyUpdate s u).working_directory =
      updKey s.working_directory u.working_directory := rfl

@[simp]
theorem applyUpdate_file_tree (s u : ReviewState) :
    (applyUpdate s u).file_tree = updKey s.file_tree u.file_tree := rfl

@[simp]
theorem applyUpdate_input_path (s u : ReviewState) :
    (applyUpdate s u).input_path = updKey s.input_path u.input_path := rfl

@[simp]
theorem applyUpdate_output_dir (s u : ReviewState) :
    (applyUpdate s u).output_dir = updKey s.output_dir u.output_dir := rfl

@[simp]
theorem applyUpdate_source_type (s u : ReviewState) :
    (applyUpdate s u).source_type =
      updKey s.source_type u.source_type := rfl

@[simp]
theorem applyUpdate_is_temp_directory (s u : ReviewState) :
    (applyUpdate s u).is_temp_directory =
      updKey s.is_temp_directory u.is_temp_directory := rfl

/-- A key that already holds a value keeps it across a fold of updates
none of which writes another value to it. -/
theorem foldl_key_preserve {α : Type} (f : ReviewState → Option α)
    (hf : ∀ s u, f (applyUpdate s u) = updKey (f s) (f u)) (v : α)
    (us : List ReviewState) :
    ∀ s : ReviewState, f s = some v →
      (∀ x ∈ us, f x = none ∨ f x = some v) →
      f (us.foldl applyUpdate s) = some v := by
  induction us with
  | nil => exact fun s hs _ => hs
  | cons x t ih =>
    intro s hs h
    simp only [List.foldl_cons]
    apply ih
    · rcases h x (List.mem_cons_self x t) with h1 | h1 <;>
        rw [hf s x, h1] <;> simp [hs]
    · exact fun y hy => h y (List.mem_cons_of_mem x hy)

/-- A key written by one update of the fold (to `v`) and by no other
update (to anything else) ends at `v`, wherever that update sits. -/
theorem foldl_key_set {α : Type} (f : ReviewState → Option α)
    (hf : ∀ s u, f (applyUpdate s u) = updKey (f s) (f u)) (v : α)
    (us : List ReviewState) :
    ∀ (s u : ReviewState), u ∈ us → f u = some v →
      (∀ x ∈ us, f x = none ∨ f x = some v) →
      f (us.foldl applyUpdate s) = some v := by
  induction us with
  | nil =>
    intro s u hu
    cases hu
  | cons x t ih =>
    intro s u hu huv h
    simp only [List.foldl_cons]
    rcases List.mem_cons.mp hu with rfl | h2
    · apply foldl_key_preserve f hf v t
      · rw [hf, huv]
        rfl
      · exact fun y hy => h y (List.mem_cons_of_mem _ hy)
    · exact ih (applyUpdate s x) u h2 huv
        (fun y hy => h y (List.mem_cons_of_mem x hy))

/-- One merge only ever appends to the warnings list. -/
theorem warnings_applyUpdate_mono (s u : ReviewState) :
    s.warnings.getD [] ⊆ (applyUpdate s u).warnings.getD [] := by
  rw [applyUpdate_warnings]
  cases hw : u.warnings with
  | none => simp
  | some w =>
    simp only [warnMerge_some, Option.getD_some]
    exact List.subset_append_left _ _

/-- A message an update's warnings carry is in the merged list. -/
theorem warnings_applyUpdate_mem (s u : ReviewState)
    (w : List (List Char)) (m : List Char) (hw : u.warnings = some w)
    (hm : m ∈ w) : m ∈ (applyUpdate s u).warnings.getD [] := by
  rw [applyUpdate_warnings, hw]
  simp only [warnMerge_some, Option.getD_some, List.mem_append]
  exact Or.inr hm

/-- A fold of merges only ever appends to the warnings list. -/
theorem warnings_foldl_mono (us : List ReviewState) :
    ∀ s : ReviewState,
      s.warnings.getD [] ⊆ (us.foldl applyUpdate s).warnings.getD [] := by
  induction us with
  | nil => exact fun _ => List.Subset.refl _
  | cons x t ih =>
    intro s
    simp only [List.foldl_cons]
    exact (warnings_applyUpdate_mono s x).trans (ih (applyUpdate s x))

/-- A message carried by any update of a fold is in the final warnings
list. -/
theorem warnings_foldl_mem (us : List ReviewState) :
    ∀ (s u : ReviewState) (w : List (List Char)) (m : List Char),
      u ∈ us → u.warnings = some w → m ∈ w →
      m ∈ (us.foldl applyUpdate s).warnings.getD [] := by
  induction us with
  | nil =>
    intro s u w m hu
    cases hu
  | cons x t ih =>
    intro s u w m hu hw hm
    simp only [List.foldl_cons]
    rcases List.mem_cons.mp hu with rfl | h2
    · exact warnings_foldl_mono t (applyUpdate s u)
        (warnings_applyUpdate_mem s u w m hw hm)
    · exact ih (applyUpdate s x) u w m h2 hw hm

/-- A fold over tags of the per-tag updates is the fold of the mapped
update list. -/
theorem foldl_map_apply (f : BranchTag → ReviewState)
    (order : List BranchTag) :
    ∀ s : ReviewState,
      order.foldl (fun a t => applyUpdate a (f t)) s =
        (order.map f).foldl applyUpdate s := by
  induction order with
  | nil => exact fun _ => rfl
  | cons t r ih =>
    intro s
    simp only [List.foldl_cons, List.map_cons]
    exact ih _

/-! The branch updates on a snapshot that admits the main paths. -/

/-- The security node on a snapshot with no error, a working directory
and files: the update carries the outcome's findings under its own key,
no sibling key, and the tagged warning exactly on failure. -/
theorem security_node_fields (s : ReviewState) (o : BranchOutcome)
    (herr : pyTruthyStr s.error = false)
    (hwd : pyTruthyStr s.working_directory = true)
    (hfl : (filesOfState s).isEmpty = false) :
    (security_node s o).security_findings = some (findingsOf o) ∧
    (security_node s o).performance_findings = none ∧
    (security_node s o).style_findings = none ∧
    (security_node s o).error = none ∧
    (security_node s o).warnings =
      warnAdd (s.warnings.getD []) ("Security analysis failed: ".toList)
        o := by
  unfold security_node
  rw [if_neg (by simp [herr]), if_neg (by simp [hwd]),
    if_neg (by simp [hfl])]
  cases o <;> simp [findingsOf, warnAdd, emptyUpd]

/-- The performance node on a main-path snapshot, like
`security_node_fields`. -/
theorem performance_node_fields (s : ReviewState) (o : BranchOutcome)
    (herr : pyTruthyStr s.error = false)
    (hwd : pyTruthyStr s.working_directory = true)
    (hfl : (filesOfState s).isEmpty = false) :
    (performance_node s o).performance_findings = some (findingsOf o) ∧
    (performance_node s o).security_findings = none ∧
    (performance_node s o).style_findings = none ∧
    (performance_node s o).error = none ∧
    (performance_node s o).warnings =
      warnAdd (s.warnings.getD [])
        ("Performance analysis failed: ".toList) o := by
  unfold performance_node
  rw [if_neg (by simp [herr]), if_neg (by simp [hwd]),
    if_neg (by simp [hfl])]
  cases o <;> simp [findingsOf, warnAdd, emptyUpd]

/-- The style node on a main-path snapshot, like
`security_node_fields`. -/
theorem style_node_fields (s : ReviewState) (o : BranchOutcome)
    (herr : pyTruthyStr s.error = false)
    (hwd : pyTruthyStr s.working_directory = true)
    (hfl : (filesOfState s).isEmpty = false) :
    (style_node s o).style_findings = some (findingsOf o) ∧
    (style_node s o).security_findings = none ∧
    (style_node s o).performance_findings = none ∧
    (style_node s o).error = none ∧
    (style_node s o).warnings =
      warnAdd (s.warnings.getD []) ("Style analysis failed: ".toList)
        o := by
  unfold style_node
  rw [if_neg (by simp [herr]), if_neg (by simp [hwd]),
    if_neg (by simp [hfl])]
  cases o <;> simp [findingsOf, warnAdd, emptyUpd]

/-- C1 (refuting runs): the gate's HALT does not stop the analysis or
aggregation stages. First run: a local input whose scan finds zero
files — the gate routes the conditional edge to END, yet the
unconditional edges still execute the performance, style and aggregator
nodes; the zero-files error assignment is made on the gate's ephemeral
read view, so the final state carries no error and the aggregator even
produces a report. Second run: ingestion fails with an error — the gate
halts, the error is non-empty, and the same three stages still execute.
Both contradict the claimed zero analysis/aggregation execution. -/
theorem c1_halt_still_runs_stages :
    ((runReview
        ⟨⟨CloneOutcome.err [], ScanOutcome.ok ("/proj".toList) [],
          "/proj".toList⟩, .ok [], .ok [], .ok [], "T".toList⟩
        (create_initial_state ("/proj".toList) ("./out".toList))).gate =
        GateResult.toEnd ∧
      (runReview
        ⟨⟨CloneOutcome.err [], ScanOutcome.ok ("/proj".toList) [],
          "/proj".toList⟩, .ok [], .ok [], .ok [], "T".toList⟩
        (create_initial_state ("/proj".toList)
          ("./out".toList))).executed =
        [NodeName.ingestor, NodeName.performance, NodeName.style,
          NodeName.aggregator] ∧
      (runReview
        ⟨⟨CloneOutcome.err [], ScanOutcome.ok ("/proj".toList) [],
          "/proj".toList⟩, .ok [], .ok [], .ok [], "T".toList⟩
        (create_initial_state ("/proj".toList)
          ("./out".toList))).finalState.error = none ∧
      (runReview
        ⟨⟨CloneOutcome.err [], ScanOutcome.ok ("/proj".toList) [],
          "/proj".toList⟩, .ok [], .ok [], .ok [], "T".toList⟩
        (create_initial_state ("/proj".toList)
          ("./out".toList))).finalState.final_report.isSome = true) ∧
    ((runReview
        ⟨⟨CloneOutcome.err ("clone failed".toList), ScanOutcome.err [],
          [], ⟩, .ok [], .ok [], .ok [], "T".toList⟩
        (create_initial_state ("https://github.com/u/r.git".toList)
          ("./out".toList))).gate = GateResult.toEnd ∧
      (runReview
        ⟨⟨CloneOutcome.err ("clone failed".toList), ScanOutcome.err [],
          [], ⟩, .ok [], .ok [], .ok [], "T".toList⟩
        (create_initial_state ("https://github.com/u/r.git".toList)
          ("./out".toList))).executed =
        [NodeName.ingestor, NodeName.performance, NodeName.style,
          NodeName.aggregator] ∧
      pyTruthyStr (runReview
        ⟨⟨CloneOutcome.err ("clone failed".toList), ScanOutcome.err [],
          [], ⟩, .ok [], .ok [], .ok [], "T".toList⟩
        (create_initial_state ("https://github.com/u/r.git".toList)
          ("./out".toList))).finalState.error = true) :=
  ⟨⟨by decide, by decide, by decide, by decide⟩,
    by decide, by decide, by decide⟩

/-- C3 (refuting runs): release of the transient working copy is not
driven by the terminal stage. Successful remote run: the clone is
temporary, the run completes with a report, and the release count is 0
both before and after aggregation — the ingestor cleared its tracking
list and the aggregator contains no cleanup call, so nothing is ever
released (not exactly once). Failing remote run: the scan of the
temporary clone raises, and the one release happens inside the
ingestion stage — before aggregation starts — contradicting the claimed
single post-aggregation release. -/
theorem c3_release_not_after_aggregation :
    ((runReview
        ⟨⟨CloneOutcome.ok ("/tmp/cr".toList) true,
          ScanOutcome.ok ("/tmp/cr".toList)
            [⟨"/tmp/cr/a.py".toList, "a.py".toList, "a.py".toList,
              ".py".toList, 1⟩], "/x".toList⟩,
          .ok [], .ok [], .ok [], "T".toList⟩
        (create_initial_state ("https://github.com/u/r.git".toList)
          ("./out".toList))).gate = GateResult.toContinue ∧
      (runReview
        ⟨⟨CloneOutcome.ok ("/tmp/cr".toList) true,
          ScanOutcome.ok ("/tmp/cr".toList)
            [⟨"/tmp/cr/a.py".toList, "a.py".toList, "a.py".toList,
              ".py".toList, 1⟩], "/x".toList⟩,
          .ok [], .ok [], .ok [], "T".toList⟩
        (create_initial_state ("https://github.com/u/r.git".toList)
          ("./out".toList))).finalState.is_temp_directory = some true ∧
      (runReview
        ⟨⟨CloneOutcome.ok ("/tmp/cr".toList) true,
          ScanOutcome.ok ("/tmp/cr".toList)
            [⟨"/tmp/cr/a.py".toList, "a.py".toList, "a.py".toList,
              ".py".toList, 1⟩], "/x".toList⟩,
          .ok [], .ok [], .ok [], "T".toList⟩
        (create_initial_state ("https://github.com/u/r.git".toList)
          ("./out".toList))).finalState.final_report.isSome = true ∧
      (runReview
        ⟨⟨CloneOutcome.ok ("/tmp/cr".toList) true,
          ScanOutcome.ok ("/tmp/cr".toList)
            [⟨"/tmp/cr/a.py".toList, "a.py".toList, "a.py".toList,
              ".py".toList, 1⟩], "/x".toList⟩,
          .ok [], .ok [], .ok [], "T".toList⟩
        (create_initial_state ("https://github.com/u/r.git".toList)
          ("./out".toList))).releasesBeforeAggregation = 0 ∧
      (runReview
        ⟨⟨CloneOutcome.ok ("/tmp/cr".toList) true,
          ScanOutcome.ok ("/tmp/cr".toList)
            [⟨"/tmp/cr/a.py".toList, "a.py".toList, "a.py".toList,
              ".py".toList, 1⟩], "/x".toList⟩,
          .ok [], .ok [], .ok [], "T".toList⟩
        (create_initial_state ("https://github.com/u/r.git".toList)
          ("./out".toList))).releasesAfterAggregation = 0) ∧
    ((runReview
        ⟨⟨CloneOutcome.ok ("/tmp/cr".toList) true,
          ScanOutcome.err ("scan boom".toList), "/x".toList⟩,
          .ok [], .ok [], .ok [], "T".toList⟩
        (create_initial_state ("https://github.com/u/r.git".toList)
          ("./out".toList))).releasesBeforeAggregation = 1 ∧
      (runReview
        ⟨⟨CloneOutcome.ok ("/tmp/cr".toList) true,
          ScanOutcome.err ("scan boom".toList), "/x".toList⟩,
          .ok [], .ok [], .ok [], "T".toList⟩
        (create_initial_state ("https://github.com/u/r.git".toList)
          ("./out".toList))).releasesAfterAggregation = 0 ∧
      (runReview
        ⟨⟨CloneOutcome.ok ("/tmp/cr".toList) true,
          ScanOutcome.err ("scan boom".toList), "/x".toList⟩,
          .ok [], .ok [], .ok [], "T".toList⟩
        (create_initial_state ("https://github.com/u/r.git".toList)
          ("./out".toList))).gate = GateResult.toEnd) :=
  ⟨⟨by decide, by decide, by decide, by decide, by decide⟩,
    by decide, by decide, by decide⟩

/-- C2: on a snapshot that passed the gate (no error, a working
directory, files to analyze), merging the three branch updates at the
barrier in any completion order loses nothing: each branch's findings
list survives under its own key, the snapshot's warnings survive, and
every failure warning any branch appended is in the merged list. -/
theorem c2_barrier_order_independent (snap : ReviewState)
    (oS oP oY : BranchOutcome) (order : List BranchTag)
    (herr : pyTruthyStr snap.error = false)
    (hwd : pyTruthyStr snap.working_directory = true)
    (hfl : (filesOfState snap).isEmpty = false)
    (hperm : order.Perm [BranchTag.sec, BranchTag.perf, BranchTag.sty]) :
    (mergeInOrder snap oS oP oY order).security_findings =
      some (findingsOf oS) ∧
    (mergeInOrder snap oS oP oY order).performance_findings =
      some (findingsOf oP) ∧
    (mergeInOrder snap oS oP oY order).style_findings =
      some (findingsOf oY) ∧
    snap.warnings.getD [] ⊆
      (mergeInOrder snap oS oP oY order).warnings.getD [] ∧
    warnMsgsOf ("Security analysis failed: ".toList) oS ⊆
      (mergeInOrder snap oS oP oY order).warnings.getD [] ∧
    warnMsgsOf ("Performance analysis failed: ".toList) oP ⊆
      (mergeInOrder snap oS oP oY order).warnings.getD [] ∧
    warnMsgsOf ("Style analysis failed: ".toList) oY ⊆
      (mergeInOrder snap oS oP oY order).warnings.getD [] := by
  obtain ⟨hs1, hs2, hs3, hs0, hs4⟩ := security_node_fields snap oS herr hwd hfl
  obtain ⟨hp1, hp2, hp3, hp0, hp4⟩ :=
    performance_node_fields snap oP herr hwd hfl
  obtain ⟨hy1, hy2, hy3, hy0, hy4⟩ := style_node_fields snap oY herr hwd hfl
  have hmo : mergeInOrder snap oS oP oY order =
      (order.map (branchNodeUpdate snap oS oP oY)).foldl applyUpdate
        snap := by
    unfold mergeInOrder
    exact foldl_map_apply _ order snap
  have hmemS : branchNodeUpdate snap oS oP oY BranchTag.sec ∈
      order.map (branchNodeUpdate snap oS oP oY) :=
    List.mem_map_of_mem _ (hperm.mem_iff.mpr (by simp))
  have hmemP : branchNodeUpdate snap oS oP oY BranchTag.perf ∈
      order.map (branchNodeUpdate snap oS oP oY) :=
    List.mem_map_of_mem _ (hperm.mem_iff.mpr (by simp))
  have hmemY : branchNodeUpdate snap oS oP oY BranchTag.sty ∈
      order.map (branchNodeUpdate snap oS oP oY) :=
    List.mem_map_of_mem _ (hperm.mem_iff.mpr (by simp))
  refine ⟨?_, ?_, ?_, ?_, ?_, ?_, ?_⟩
  · rw [hmo]
    refine foldl_key_set (fun x => x.security_findings) (fun _ _ => rfl)
      (findingsOf oS) _ snap _ hmemS hs1 ?_
    intro x hx
    obtain ⟨t, ht, rfl⟩ := List.mem_map.mp hx
    cases t with
    | sec => exact Or.inr hs1
    | perf => exact Or.inl hp2
    | sty => exact Or.inl hy2
  · rw [hmo]
    refine foldl_key_set (fun x => x.performance_findings)
      (fun _ _ => rfl) (findingsOf oP) _ snap _ hmemP hp1 ?_
    intro x hx
    obtain ⟨t, ht, rfl⟩ := List.mem_map.mp hx
    cases t with
    | sec => exact Or.inl hs2
    | perf => exact Or.inr hp1
    | sty => exact Or.inl hy3
  · rw [hmo]
    refine foldl_key_set (fun x => x.style_findings) (fun _ _ => rfl)
      (findingsOf oY) _ snap _ hmemY hy1 ?_
    intro x hx
    obtain ⟨t, ht, rfl⟩ := List.mem_map.mp hx
    cases t with
    | sec => exact Or.inl hs3
    | perf => exact Or.inl hp3
    | sty => exact Or.inr hy1
  · rw [hmo]
    exact warnings_foldl_mono _ snap
  · cases oS with
    | ok fs => simp [warnMsgsOf]
    | fail m =>
      intro a ha
      simp only [warnMsgsOf, List.mem_singleton] at ha
      subst ha
      rw [hmo]
      exact warnings_foldl_mem _ snap _ _ _ hmemS hs4 (by simp)
  · cases oP with
    | ok fs => simp [warnMsgsOf]
    | fail m =>
      intro a ha
      simp only [warnMsgsOf, List.mem_singleton] at ha
      subst ha
      rw [hmo]
      exact warnings_foldl_mem _ snap _ _ _ hmemP hp4 (by simp)
  · cases oY with
    | ok fs => simp [warnMsgsOf]
    | fail m =>
      intro a ha
      simp only [warnMsgsOf, List.mem_singleton] at ha
      subst ha
      rw [hmo]
      exact warnings_foldl_mem _ snap _ _ _ hmemY hy4 (by simp)

/-- C2 witness: a concrete gate-passed snapshot, the security branch
failing, merged in the order performance, style, security. -/
theorem c2_witness :
    (pyTruthyStr (ReviewState.mk (some ("/p".toList))
        (some ("o".toList)) (some ("local".toList)) (some ("/p".toList))
        (some false)
        (some ⟨"/p".toList,
          [⟨"/p/a.py".toList, "a.py".toList, "a.py".toList, ".py".toList,
            1⟩], 1⟩) (some 1) none none none (some []) none none
        none).error = false ∧
      pyTruthyStr (ReviewState.mk (some ("/p".toList))
        (some ("o".toList)) (some ("local".toList)) (some ("/p".toList))
        (some false)
        (some ⟨"/p".toList,
          [⟨"/p/a.py".toList, "a.py".toList, "a.py".toList, ".py".toList,
            1⟩], 1⟩) (some 1) none none none (some []) none none
        none).working_directory = true ∧
      (filesOfState (ReviewState.mk (some ("/p".toList))
        (some ("o".toList)) (some ("local".toList)) (some ("/p".toList))
        (some false)
        (some ⟨"/p".toList,
          [⟨"/p/a.py".toList, "a.py".toList, "a.py".toList, ".py".toList,
            1⟩], 1⟩) (some 1) none none none (some []) none none
        none)).isEmpty = false ∧
      List.Perm [BranchTag.perf, BranchTag.sty, BranchTag.sec]
        [BranchTag.sec, BranchTag.perf, BranchTag.sty]) ∧
    ((mergeInOrder (ReviewState.mk (some ("/p".toList))
        (some ("o".toList)) (some ("local".toList)) (some ("/p".toList))
        (some false)
        (some ⟨"/p".toList,
          [⟨"/p/a.py".toList, "a.py".toList, "a.py".toList, ".py".toList,
            1⟩], 1⟩) (some 1) none none none (some []) none none none)
        (BranchOutcome.fail ("x".toList)) (BranchOutcome.ok [])
        (BranchOutcome.ok [])
        [BranchTag.perf, BranchTag.sty,
          BranchTag.sec]).security_findings =
        some (findingsOf (BranchOutcome.fail ("x".toList))) ∧
      (mergeInOrder (ReviewState.mk (some ("/p".toList))
        (some ("o".toList)) (some ("local".toList)) (some ("/p".toList))
        (some false)
        (some ⟨"/p".toList,
          [⟨"/p/a.py".toList, "a.py".toList, "a.py".toList, ".py".toList,
            1⟩], 1⟩) (some 1) none none none (some []) none none none)
        (BranchOutcome.fail ("x".toList)) (BranchOutcome.ok [])
        (BranchOutcome.ok [])
        [BranchTag.perf, BranchTag.sty,
          BranchTag.sec]).performance_findings =
        some (findingsOf (BranchOutcome.ok [])) ∧
      (mergeInOrder (ReviewState.mk (some ("/p".toList))
        (some ("o".toList)) (some ("local".toList)) (some ("/p".toList))
        (some false)
        (some ⟨"/p".toList,
          [⟨"/p/a.py".toList, "a.py".toList, "a.py".toList, ".py".toList,
            1⟩], 1⟩) (some 1) none none none (some []) none none none)
        (BranchOutcome.fail ("x".toList)) (BranchOutcome.ok [])
        (BranchOutcome.ok [])
        [BranchTag.perf, BranchTag.sty, BranchTag.sec]).style_findings =
        some (findingsOf (BranchOutcome.ok [])) ∧
      (ReviewState.mk (some ("/p".toList)) (some ("o".toList))
        (some ("local".toList)) (some ("/p".toList)) (some false)
        (some ⟨"/p".toList,
          [⟨"/p/a.py".toList, "a.py".toList, "a.py".toList, ".py".toList,
            1⟩], 1⟩) (some 1) none none none (some []) none none
        none).warnings.getD [] ⊆
        (mergeInOrder (ReviewState.mk (some ("/p".toList))
          (some ("o".toList)) (some ("local".toList))
          (some ("/p".toList)) (some false)
          (some ⟨"/p".toList,
            [⟨"/p/a.py".toList, "a.py".toList, "a.py".toList,
              ".py".toList, 1⟩], 1⟩) (some 1) none none none (some [])
          none none none) (BranchOutcome.fail ("x".toList))
          (BranchOutcome.ok []) (BranchOutcome.ok [])
          [BranchTag.perf, BranchTag.sty,
            BranchTag.sec]).warnings.getD [] ∧
      warnMsgsOf ("Security analysis failed: ".toList)
          (BranchOutcome.fail ("x".toList)) ⊆
        (mergeInOrder (ReviewState.mk (some ("/p".toList))
          (some ("o".toList)) (some ("local".toList))
          (some ("/p".toList)) (some false)
          (some ⟨"/p".toList,
            [⟨"/p/a.py".toList, "a.py".toList, "a.py".toList,
              ".py".toList, 1⟩], 1⟩) (some 1) none none none (some [])
          none none none) (BranchOutcome.fail ("x".toList))
          (BranchOutcome.ok []) (BranchOutcome.ok [])
          [BranchTag.perf, BranchTag.sty,
            BranchTag.sec]).warnings.getD [] ∧
      warnMsgsOf ("Performance analysis failed: ".toList)
          (BranchOutcome.ok []) ⊆
        (mergeInOrder (ReviewState.mk (some ("/p".toList))
          (some ("o".toList)) (some ("local".toList))
          (some ("/p".toList)) (some false)
          (some ⟨"/p".toList,
            [⟨"/p/a.py".toList, "a.py".toList, "a.py".toList,
              ".py".toList, 1⟩], 1⟩) (some 1) none none none (some [])
          none none none) (BranchOutcome.fail ("x".toList))
          (BranchOutcome.ok []) (BranchOutcome.ok [])
          [BranchTag.perf, BranchTag.sty,
            BranchTag.sec]).warnings.getD [] ∧
      warnMsgsOf ("Style analysis failed: ".toList)
          (BranchOutcome.ok []) ⊆
        (mergeInOrder (ReviewState.mk (some ("/p".toList))
          (some ("o".toList)) (some ("local".toList))
          (some ("/p".toList)) (some false)
          (some ⟨"/p".toList,
            [⟨"/p/a.py".toList, "a.py".toList, "a.py".toList,
              ".py".toList, 1⟩], 1⟩) (some 1) none none none (some [])
          none none none) (BranchOutcome.fail ("x".toList))
          (BranchOutcome.ok []) (BranchOutcome.ok [])
          [BranchTag.perf, BranchTag.sty,
            BranchTag.sec]).warnings.getD []) :=
  ⟨⟨by decide, by decide, by decide, by decide⟩,
    c2_barrier_order_independent
      (ReviewState.mk (some ("/p".toList)) (some ("o".toList))
        (some ("local".toList)) (some ("/p".toList)) (some false)
        (some ⟨"/p".toList,
          [⟨"/p/a.py".toList, "a.py".toList, "a.py".toList, ".py".toList,
            1⟩], 1⟩) (some 1) none none none (some []) none none none)
      (BranchOutcome.fail ("x".toList)) (BranchOutcome.ok [])
      (BranchOutcome.ok [])
      [BranchTag.perf, BranchTag.sty, BranchTag.sec] (by decide)
      (by decide) (by decide) (by decide)⟩

/-- The warning tag each branch's handler prefixes to the caught
message. -/
def failTagMsg : BranchTag → List Char
  | .sec => "Security analysis failed: ".toList
  | .perf => "Performance analysis failed: ".toList
  | .sty => "Style analysis failed: ".toList

/-- A run environment in which exactly the `tag` branch raises with
message `m` and the other two branches return their findings; the clone
and the scan both succeed, so the run covers the remote route (when the
input is a git URL) and the local route (otherwise) alike. -/
def c4Env (tag : BranchTag) (m : List Char) (fS fP fY : List Json)
    (cpath : List Char) (isTemp : Bool) (root resolved ts : List Char)
    (files : List FileEntry) : RunEnv :=
  ⟨⟨CloneOutcome.ok cpath isTemp, ScanOutcome.ok root files, resolved⟩,
    (match tag with
      | .sec => BranchOutcome.fail m
      | _ => BranchOutcome.ok fS),
    (match tag with
      | .perf => BranchOutcome.fail m
      | _ => BranchOutcome.ok fP),
    (match tag with
      | .sty => BranchOutcome.fail m
      | _ => BranchOutcome.ok fY), ts⟩

/-- C4: in a run with files in which exactly one analysis branch — any
of security, performance or style — raises, over either ingestion
route, the failure stays at that branch's boundary: the gate admits the
run, each key of the post-barrier state carries its own branch's
outcome (so the failing branch's list is merged as the empty list and
the other two branches' findings are unaffected), exactly the one
tagged warning is appended, and aggregation still runs and produces a
report with a path. -/
theorem c4_branch_failure_isolated (tag : BranchTag)
    (input out root cpath resolved m ts : List Char) (isTemp : Bool)
    (files : List FileEntry) (fS fP fY : List Json) (hin : input ≠ [])
    (hcp : cpath ≠ []) (hres : resolved ≠ []) (hfiles : files ≠ []) :
    (runReview (c4Env tag m fS fP fY cpath isTemp root resolved ts files)
        (create_initial_state input out)).gate =
      GateResult.toContinue ∧
    (runReview (c4Env tag m fS fP fY cpath isTemp root resolved ts files)
        (create_initial_state input out)).postBarrier.security_findings =
      some (findingsOf (c4Env tag m fS fP fY cpath isTemp root resolved
        ts files).sec) ∧
    (runReview (c4Env tag m fS fP fY cpath isTemp root resolved ts files)
        (create_initial_state input
          out)).postBarrier.performance_findings =
      some (findingsOf (c4Env tag m fS fP fY cpath isTemp root resolved
        ts files).perf) ∧
    (runReview (c4Env tag m fS fP fY cpath isTemp root resolved ts files)
        (create_initial_state input out)).postBarrier.style_findings =
      some (findingsOf (c4Env tag m fS fP fY cpath isTemp root resolved
        ts files).sty) ∧
    (tag = BranchTag.sec →
      (runReview (c4Env tag m fS fP fY cpath isTemp root resolved ts
          files)
        (create_initial_state input out)).postBarrier.security_findings =
      some []) ∧
    (tag = BranchTag.perf →
      (runReview (c4Env tag m fS fP fY cpath isTemp root resolved ts
          files)
        (create_initial_state input
          out)).postBarrier.performance_findings = some []) ∧
    (tag = BranchTag.sty →
      (runReview (c4Env tag m fS fP fY cpath isTemp root resolved ts
          files)
        (create_initial_state input out)).postBarrier.style_findings =
      some []) ∧
    (runReview (c4Env tag m fS fP fY cpath isTemp root resolved ts files)
        (create_initial_state input out)).postBarrier.warnings =
      some [failTagMsg tag ++ m] ∧
    (runReview (c4Env tag m fS fP fY cpath isTemp root resolved ts files)
        (create_initial_state input
          out)).finalState.final_report.isSome = true ∧
    (runReview (c4Env tag m fS fP fY cpath isTemp root resolved ts files)
        (create_initial_state input out)).finalState.report_path.isSome =
      true := by
  have hie : input.isEmpty = false := by
    cases input with
    | nil => exact absurd rfl hin
    | cons a b => rfl
  have hs1c : ∃ wd st it, wd.isEmpty = false ∧
      applyUpdate (create_initial_state input out)
        (ingestor_node
          (c4Env tag m fS fP fY cpath isTemp root resolved ts
            files).ingest (create_initial_state input out)).1 =
      ReviewState.mk (some input) (some out) (some st) (some wd)
        (some it) (some ⟨root, files, files.length⟩) (some files.length)
        none none none (some []) none none none := by
    cases hgit : is_git_url input with
    | true =>
      have hcpe : cpath.isEmpty = false := by
        cases cpath with
        | nil => exact absurd rfl hcp
        | cons a b => rfl
      refine ⟨cpath, ("git".toList), isTemp, hcpe, ?_⟩
      unfold c4Env ingestor_node create_initial_state
      dsimp only
      rw [if_neg (by simp [pyTruthyStr, hie])]
      simp only [Option.getD_some]
      rw [if_pos hgit]
      dsimp only
      simp [applyUpdate, updKey, warnMerge]
    | false =>
      have hrese : resolved.isEmpty = false := by
        cases resolved with
        | nil => exact absurd rfl hres
        | cons a b => rfl
      refine ⟨resolved, ("local".toList), false, hrese, ?_⟩
      unfold c4Env ingestor_node create_initial_state
      dsimp only
      rw [if_neg (by simp [pyTruthyStr, hie])]
      simp only [Option.getD_some]
      rw [if_neg (by simp [hgit])]
      dsimp only
      simp [applyUpdate, updKey, warnMerge]
  obtain ⟨wd, st, it, hwde, hs1⟩ := hs1c
  have hg : should_continue_to_agents
      (ReviewState.mk (some input) (some out) (some st) (some wd)
        (some it) (some ⟨root, files, files.length⟩) (some files.length)
        none none none (some []) none none none) =
      GateResult.toContinue := by
    unfold should_continue_to_agents
    dsimp only
    have hnf : ¬((some files.length).getD 0 = 0) := by
      simp only [Option.getD_some, List.length_eq_zero]
      exact hfiles
    rw [if_neg (by simp [pyTruthyStr]), if_neg hnf]
  have herr : pyTruthyStr
      (ReviewState.mk (some input) (some out) (some st) (some wd)
        (some it) (some ⟨root, files, files.length⟩) (some files.length)
        none none none (some []) none none none).error = false := rfl
  have hwdT : pyTruthyStr
      (ReviewState.mk (some input) (some out) (some st) (some wd)
        (some it) (some ⟨root, files, files.length⟩) (some files.length)
        none none none (some []) none none
        none).working_directory = true := by
    simp [pyTruthyStr, hwde]
  have hflF : (filesOfState
      (ReviewState.mk (some input) (some out) (some st) (some wd)
        (some it) (some ⟨root, files, files.length⟩) (some files.length)
        none none none (some []) none none none)).isEmpty = false := by
    cases files with
    | nil => exact absurd rfl hfiles
    | cons a b => rfl
  obtain ⟨hs1f, hs2f, hs3f, hs0f, hs4f⟩ := security_node_fields _
    ((c4Env tag m fS fP fY cpath isTemp root resolved ts files).sec)
    herr hwdT hflF
  obtain ⟨hp1f, hp2f, hp3f, hp0f, hp4f⟩ := performance_node_fields _
    ((c4Env tag m fS fP fY cpath isTemp root resolved ts files).perf)
    herr hwdT hflF
  obtain ⟨hy1f, hy2f, hy3f, hy0f, hy4f⟩ := style_node_fields _
    ((c4Env tag m fS fP fY cpath isTemp root resolved ts files).sty)
    herr hwdT hflF
  have hpb : (runReview
      (c4Env tag m fS fP fY cpath isTemp root resolved ts files)
      (create_initial_state input out)).postBarrier =
      applyUpdate (applyUpdate (applyUpdate
        (ReviewState.mk (some input) (some out) (some st) (some wd)
          (some it) (some ⟨root, files, files.length⟩)
          (some files.length) none none none (some []) none none none)
        (security_node
          (ReviewState.mk (some input) (some out) (some st) (some wd)
            (some it) (some ⟨root, files, files.length⟩)
            (some files.length) none none none (some []) none none none)
          ((c4Env tag m fS fP fY cpath isTemp root resolved ts
            files).sec)))
        (performance_node
          (ReviewState.mk (some input) (some out) (some st) (some wd)
            (some it) (some ⟨root, files, files.length⟩)
            (some files.length) none none none (some []) none none none)
          ((c4Env tag m fS fP fY cpath isTemp root resolved ts
            files).perf)))
        (style_node
          (ReviewState.mk (some input) (some out) (some st) (some wd)
            (some it) (some ⟨root, files, files.length⟩)
            (some files.length) none none none (some []) none none none)
          ((c4Env tag m fS fP fY cpath isTemp root resolved ts
            files).sty)) := by
    show postBarrierOf
      (c4Env tag m fS fP fY cpath isTemp root resolved ts files)
      (applyUpdate (create_initial_state input out)
        (ingestor_node
          (c4Env tag m fS fP fY cpath isTemp root resolved ts
            files).ingest (create_initial_state input out)).1)
      (should_continue_to_agents
        (applyUpdate (create_initial_state input out)
          (ingestor_node
            (c4Env tag m fS fP fY cpath isTemp root resolved ts
              files).ingest (create_initial_state input out)).1)) = _
    rw [hs1, hg]
    rfl
  have hgate : (runReview
      (c4Env tag m fS fP fY cpath isTemp root resolved ts files)
      (create_initial_state input out)).gate =
      GateResult.toContinue := by
    show should_continue_to_agents
      (applyUpdate (create_initial_state input out)
        (ingestor_node
          (c4Env tag m fS fP fY cpath isTemp root resolved ts
            files).ingest (create_initial_state input out)).1) = _
    rw [hs1]
    exact hg
  have h2 : (runReview
      (c4Env tag m fS fP fY cpath isTemp root resolved ts files)
      (create_initial_state input out)).postBarrier.security_findings =
      some (findingsOf (c4Env tag m fS fP fY cpath isTemp root resolved
        ts files).sec) := by
    rw [hpb]
    simp only [applyUpdate_security_findings]
    rw [hs1f, hp2f, hy2f]
    rfl
  have h3 : (runReview
      (c4Env tag m fS fP fY cpath isTemp root resolved ts files)
      (create_initial_state input
        out)).postBarrier.performance_findings =
      some (findingsOf (c4Env tag m fS fP fY cpath isTemp root resolved
        ts files).perf) := by
    rw [hpb]
    simp only [applyUpdate_performance_findings]
    rw [hs2f, hp1f, hy3f]
    rfl
  have h4 : (runReview
      (c4Env tag m fS fP fY cpath isTemp root resolved ts files)
      (create_initial_state input out)).postBarrier.style_findings =
      some (findingsOf (c4Env tag m fS fP fY cpath isTemp root resolved
        ts files).sty) := by
    rw [hpb]
    simp only [applyUpdate_style_findings]
    rw [hs3f, hp3f, hy1f]
    rfl
  have herrPB : (runReview
      (c4Env tag m fS fP fY cpath isTemp root resolved ts files)
      (create_initial_state input out)).postBarrier.error = none := by
    rw [hpb]
    simp only [applyUpdate_error]
    rw [hs0f, hp0f, hy0f]
    rfl
  have hfin : (runReview
      (c4Env tag m fS fP fY cpath isTemp root resolved ts files)
      (create_initial_state input out)).finalState =
      applyUpdate (runReview
        (c4Env tag m fS fP fY cpath isTemp root resolved ts files)
        (create_initial_state input out)).postBarrier
        (aggregator_node
          (c4Env tag m fS fP fY cpath isTemp root resolved ts files).ts
          (runReview
            (c4Env tag m fS fP fY cpath isTemp root resolved ts files)
            (create_initial_state input out)).postBarrier) := rfl
  have hagg : aggregator_node
      (c4Env tag m fS fP fY cpath isTemp root resolved ts files).ts
      (runReview (c4Env tag m fS fP fY cpath isTemp root resolved ts
        files) (create_initial_state input out)).postBarrier =
      { (runReview (c4Env tag m fS fP fY cpath isTemp root resolved ts
          files) (create_initial_state input out)).postBarrier with
        final_report := some (generate_report
          (c4Env tag m fS fP fY cpath isTemp root resolved ts files).ts
          (runReview (c4Env tag m fS fP fY cpath isTemp root resolved
            ts files) (create_initial_state input out)).postBarrier
          ((runReview (c4Env tag m fS fP fY cpath isTemp root resolved
            ts files) (create_initial_state input
              out)).postBarrier.output_dir.getD
            ("./code_reviews".toList))).1
        report_path := some (generate_report
          (c4Env tag m fS fP fY cpath isTemp root resolved ts files).ts
          (runReview (c4Env tag m fS fP fY cpath isTemp root resolved
            ts files) (create_initial_state input out)).postBarrier
          ((runReview (c4Env tag m fS fP fY cpath isTemp root resolved
            ts files) (create_initial_state input
              out)).postBarrier.output_dir.getD
            ("./code_reviews".toList))).2 } := by
    unfold aggregator_node
    rw [if_neg (by simp [pyTruthyStr, herrPB])]
  refine ⟨hgate, h2, h3, h4, ?_, ?_, ?_, ?_, ?_, ?_⟩
  · intro h
    subst h
    rw [h2]
    rfl
  · intro h
    subst h
    rw [h3]
    rfl
  · intro h
    subst h
    rw [h4]
    rfl
  · rw [hpb]
    simp only [applyUpdate_warnings]
    rw [hs4f, hp4f, hy4f]
    cases tag <;> simp [c4Env, warnAdd, failTagMsg]
  · rw [hfin, applyUpdate_final_report, hagg]
    rfl
  · rw [hfin, applyUpdate_report_path, hagg]
    rfl

/-- C4 witness: a remote run (git URL input, temporary clone) with the
style branch failing with message `x` and the other two branches
succeeding. -/
theorem c4_witness :
    (("https://github.com/u/r.git".toList ≠ ([] : List Char)) ∧
      ("/tmp/cr".toList ≠ ([] : List Char)) ∧
      ("/x".toList ≠ ([] : List Char)) ∧
      ([⟨"/tmp/cr/a.py".toList, "a.py".toList, "a.py".toList,
        ".py".toList, 1⟩] ≠ ([] : List FileEntry))) ∧
    (((runReview (c4Env BranchTag.sty ("x".toList) [] [] [] ("/tmp/cr".toList) true
        ("/tmp/cr".toList) ("/x".toList) ("T".toList)
        [⟨"/tmp/cr/a.py".toList, "a.py".toList, "a.py".toList,
          ".py".toList, 1⟩])
        (create_initial_state ("https://github.com/u/r.git".toList)
          ("./out".toList))).gate =
      GateResult.toContinue) ∧
    ((runReview (c4Env BranchTag.sty ("x".toList) [] [] [] ("/tmp/cr".toList) true
        ("/tmp/cr".toList) ("/x".toList) ("T".toList)
        [⟨"/tmp/cr/a.py".toList, "a.py".toList, "a.py".toList,
          ".py".toList, 1⟩])
        (create_initial_state ("https://github.com/u/r.git".toList)
          ("./out".toList))).postBarrier.security_findings =
      some (findingsOf (c4Env BranchTag.sty ("x".toList) [] [] [] ("/tmp/cr".toList) true
        ("/tmp/cr".toList) ("/x".toList) ("T".toList)
        [⟨"/tmp/cr/a.py".toList, "a.py".toList, "a.py".toList,
          ".py".toList, 1⟩]).sec)) ∧
    ((runReview (c4Env BranchTag.sty ("x".toList) [] [] [] ("/tmp/cr".toList) true
        ("/tmp/cr".toList) ("/x".toList) ("T".toList)
        [⟨"/tmp/cr/a.py".toList, "a.py".toList, "a.py".toList,
          ".py".toList, 1⟩])
        (create_initial_state ("https://github.com/u/r.git".toList)
          ("./out".toList))).postBarrier.performance_findings =
      some (findingsOf (c4Env BranchTag.sty ("x".toList) [] [] [] ("/tmp/cr".toList) true
        ("/tmp/cr".toList) ("/x".toList) ("T".toList)
        [⟨"/tmp/cr/a.py".toList, "a.py".toList, "a.py".toList,
          ".py".toList, 1⟩]).perf)) ∧
    ((runReview (c4Env BranchTag.sty ("x".toList) [] [] [] ("/tmp/cr".toList) true
        ("/tmp/cr".toList) ("/x".toList) ("T".toList)
        [⟨"/tmp/cr/a.py".toList, "a.py".toList, "a.py".toList,
          ".py".toList, 1⟩])
        (create_initial_state ("https://github.com/u/r.git".toList)
          ("./out".toList))).postBarrier.style_findings =
      some (findingsOf (c4Env BranchTag.sty ("x".toList) [] [] [] ("/tmp/cr".toList) true
        ("/tmp/cr".toList) ("/x".toList) ("T".toList)
        [⟨"/tmp/cr/a.py".toList, "a.py".toList, "a.py".toList,
          ".py".toList, 1⟩]).sty)) ∧
    ((BranchTag.sty = BranchTag.sec →
      (runReview (c4Env BranchTag.sty ("x".toList) [] [] [] ("/tmp/cr".toList) true
        ("/tmp/cr".toList) ("/x".toList) ("T".toList)
        [⟨"/tmp/cr/a.py".toList, "a.py".toList, "a.py".toList,
          ".py".toList, 1⟩])
        (create_initial_state ("https://github.com/u/r.git".toList)
          ("./out".toList))).postBarrier.security_findings = some [])) ∧
    ((BranchTag.sty = BranchTag.perf →
      (runReview (c4Env BranchTag.sty ("x".toList) [] [] [] ("/tmp/cr".toList) true
        ("/tmp/cr".toList) ("/x".toList) ("T".toList)
        [⟨"/tmp/cr/a.py".toList, "a.py".toList, "a.py".toList,
          ".py".toList, 1⟩])
        (create_initial_state ("https://github.com/u/r.git".toList)
          ("./out".toList))).postBarrier.performance_findings = some [])) ∧
    ((BranchTag.sty = BranchTag.sty →
      (runReview (c4Env BranchTag.sty ("x".toList) [] [] [] ("/tmp/cr".toList) true
        ("/tmp/cr".toList) ("/x".toList) ("T".toList)
        [⟨"/tmp/cr/a.py".toList, "a.py".toList, "a.py".toList,
          ".py".toList, 1⟩])
        (create_initial_state ("https://github.com/u/r.git".toList)
          ("./out".toList))).postBarrier.style_findings = some [])) ∧
    ((runReview (c4Env BranchTag.sty ("x".toList) [] [] [] ("/tmp/cr".toList) true
        ("/tmp/cr".toList) ("/x".toList) ("T".toList)
        [⟨"/tmp/cr/a.py".toList, "a.py".toList, "a.py".toList,
          ".py".toList, 1⟩])
        (create_initial_state ("https://github.com/u/r.git".toList)
          ("./out".toList))).postBarrier.warnings =
      some [failTagMsg BranchTag.sty ++ "x".toList]) ∧
    ((runReview (c4Env BranchTag.sty ("x".toList) [] [] [] ("/tmp/cr".toList) true
        ("/tmp/cr".toList) ("/x".toList) ("T".toList)
        [⟨"/tmp/cr/a.py".toList, "a.py".toList, "a.py".toList,
          ".py".toList, 1⟩])
        (create_initial_state ("https://github.com/u/r.git".toList)
          ("./out".toList))).finalState.final_report.isSome = true) ∧
    ((runReview (c4Env BranchTag.sty ("x".toList) [] [] [] ("/tmp/cr".toList) true
        ("/tmp/cr".toList) ("/x".toList) ("T".toList)
        [⟨"/tmp/cr/a.py".toList, "a.py".toList, "a.py".toList,
          ".py".toList, 1⟩])
        (create_initial_state ("https://github.com/u/r.git".toList)
          ("./out".toList))).finalState.report_path.isSome = true)) :=
  ⟨⟨by decide, by decide, by decide, by decide⟩,
    c4_branch_failure_isolated BranchTag.sty
      ("https://github.com/u/r.git".toList) ("./out".toList)
      ("/tmp/cr".toList) ("/tmp/cr".toList) ("/x".toList) ("x".toList)
      ("T".toList) true
      [⟨"/tmp/cr/a.py".toList, "a.py".toList, "a.py".toList,
        ".py".toList, 1⟩] [] [] [] (by decide) (by decide) (by decide)
      (by decide)⟩

end CRA
